import Mathlib

/-!
# Verification of the `rusty_employees` in-memory database

Modelling conventions:
* a Rust `char` is its Unicode scalar value, a `Nat`;
* a Rust `String` is the list of its characters' scalar values
  (UTF-8 byte-lexicographic order on Rust strings coincides with
  scalar-value-lexicographic order, so `BTreeMap<String, _>` iteration
  order is faithfully reproduced);
* `BTreeMap` is a strictly-sorted association list;
* the Unicode case tables are modelled on the fragment the development
  exercises: exact on ASCII and on U+00DF (ß); every other character is
  modelled as case-invariant;
* code that can panic (`unwrap`, `expect`) is modelled in the `Option`
  monad, `none` meaning a panic.
-/

/-- Rust `String`/`&str`, modelled as the list of Unicode scalar values of
its characters (a Rust `char` is a scalar value, modelled as a `Nat`). -/
abbrev Str := List Nat

/-- Converts a Lean string literal into the model representation. -/
def str (s : String) : Str := s.data.map Char.toNat

/-- Rust `char::is_whitespace`: membership in the Unicode `White_Space`
set (the complete list of `White_Space` code points). -/
def isWS (c : Nat) : Bool :=
  c = 9 || c = 10 || c = 11 || c = 12 || c = 13 || c = 32 || c = 133 || c = 160 ||
  c = 5760 || (8192 ≤ c && c ≤ 8202) || c = 8232 || c = 8233 || c = 8239 ||
  c = 8287 || c = 12288

/-- Rust `char::to_uppercase`, a sequence of characters.  Modelled Unicode
fragment: exact on ASCII and on U+00DF (ß, scalar 223), whose uppercase is
the two-character sequence "SS"; all other characters are modelled as
case-invariant. -/
def charToUppercase (c : Nat) : List Nat :=
  if c = 223 then [83, 83] else if 97 ≤ c ∧ c ≤ 122 then [c - 32] else [c]

/-- Rust `char::to_lowercase` on the same modelled fragment: exact on
ASCII (and on ß, which is already lowercase); other characters are
case-invariant. -/
def charToLowercase (c : Nat) : List Nat :=
  if 65 ≤ c ∧ c ≤ 90 then [c + 32] else [c]

/-- `character.to_uppercase().next().unwrap()`: the first character of the
uppercase expansion.  Total because the expansion is never empty. -/
def upperFirst (c : Nat) : Nat := (charToUppercase c).headD c

/-- `character.to_lowercase().next().unwrap()`. -/
def lowerFirst (c : Nat) : Nat := (charToLowercase c).headD c

/-- Rust `str::to_uppercase`: concatenation of the character-wise
uppercase expansions (the special lowercase-sigma handling of
`str::to_lowercase` has no analogue when uppercasing). -/
def strToUppercase (s : Str) : Str := s.flatMap charToUppercase

/-- Worker for `str::split_whitespace`; `acc` is the current word,
reversed. -/
def splitWSAux : Str → Str → List Str
  | [], acc => if acc.isEmpty then [] else [acc.reverse]
  | c :: rest, acc =>
    if isWS c then
      if acc.isEmpty then splitWSAux rest [] else acc.reverse :: splitWSAux rest []
    else splitWSAux rest (c :: acc)

/-- Rust `str::split_whitespace`, as the eager list of words. -/
def splitWS (s : Str) : List Str := splitWSAux s []

/-- Joining words with single spaces: the `fold` in the employees'
`to_name` and the `for_each` joins in the Assign/Pull/Transfer token
parsing routines. -/
def joinSpaces : List Str → Str
  | [] => []
  | w :: ws => w ++ ws.flatMap (fun w' => 32 :: w')

/-- Strict lexicographic order on model strings: the `Ord` used by
`BTreeMap<String, _>` (byte order on UTF-8, which equals scalar-value
order). -/
def strLt : Str → Str → Bool
  | [], [] => false
  | [], _ :: _ => true
  | _ :: _, [] => false
  | a :: as, b :: bs => if a < b then true else if b < a then false else strLt as bs

/-- Rust `BTreeMap<String, V>`, modelled as a (strictly sorted)
association list. -/
abbrev SMap (V : Type) := List (Str × V)

/-- `BTreeMap::get`. -/
def SMap.find? {V : Type} (k : Str) : SMap V → Option V
  | [] => none
  | (k', v) :: t => if k = k' then some v else SMap.find? k t

/-- The key list, in storage (= iteration) order. -/
def SMap.keys {V : Type} (m : SMap V) : List Str := m.map Prod.fst

/-- `BTreeMap::contains_key` / `Entry::Occupied` test. -/
def SMap.containsK {V : Type} (k : Str) (m : SMap V) : Bool := (SMap.find? k m).isSome

/-- Ordered insertion (insertion into a vacant `Entry`; on a present key
the stored value is replaced, a branch the embedded code never takes). -/
def SMap.insertS {V : Type} (k : Str) (v : V) : SMap V → SMap V
  | [] => [(k, v)]
  | (k', v') :: t =>
    if strLt k k' then (k, v) :: (k', v') :: t
    else if k = k' then (k, v) :: t
    else (k', v') :: SMap.insertS k v t

/-- `BTreeMap::remove` (drops the first — under sortedness the only —
binding of `k`). -/
def SMap.erase {V : Type} (k : Str) : SMap V → SMap V
  | [] => []
  | (k', v') :: t => if k = k' then t else (k', v') :: SMap.erase k t

/-- Mutation of the value stored at `k` through a `&mut` reference
obtained by lookup; keys and their order are untouched. -/
def SMap.setVal {V : Type} (k : Str) (v : V) : SMap V → SMap V
  | [] => []
  | (k', v') :: t => if k = k' then (k', v) :: t else (k', v') :: SMap.setVal k v t

/-- The strict-sortedness invariant of a `BTreeMap`'s entry list. -/
def SMap.WF {V : Type} (m : SMap V) : Prop :=
  m.Pairwise (fun a b => strLt a.1 b.1 = true)

/-! ## `src/database/errors.rs` -/

/-- `QueryError` from `src/database/errors.rs`. -/
inductive QueryError where
  | Conflict (message : Str)
  | NotFound (message : Str)
deriving DecidableEq

/-- The char-wise title casing shared by both `to_name` functions: first
character through `to_uppercase().next().unwrap()`, every further
character through `to_lowercase().next().unwrap()`. -/
def titleCase (value : Str) : Str :=
  match value with
  | [] => []
  | c :: rest => upperFirst c :: rest.map lowerFirst

/-! ## `src/database/store/employees.rs` -/

/-- `to_key` from `src/database/store/employees.rs`:
`value.to_uppercase()`. -/
def Employees.to_key (value : Str) : Str := strToUppercase value

/-- `to_name` from `src/database/store/employees.rs`: split on whitespace,
title-case each word, re-join the words with single spaces (the `fold`
inserts one space before every word except the first). -/
def Employees.to_name (value : Str) : Str :=
  joinSpaces ((splitWS value).map titleCase)

/-- `Employee` from `src/database/store/employees.rs`. -/
structure Employee where
  name : Str
deriving DecidableEq

/-- `Employee::new`. -/
def Employee.new (name : Str) : Employee :=
  { name := Employees.to_name name }

/-- `Employees` from `src/database/store/employees.rs`. -/
structure Employees where
  index : SMap Employee
deriving DecidableEq

/-- `Employees::new`. -/
def Employees.new : Employees := { index := [] }

/-- `Employees::employee`: lookup by normalized key. -/
def Employees.employee (es : Employees) (employee_name : Str) :
    Except QueryError Employee :=
  match SMap.find? (Employees.to_key employee_name) es.index with
  | none => .error (.NotFound
      (str "Employee \"" ++ employee_name ++ str "\" does not exist"))
  | some employee => .ok employee

/-- `Employees::list`: the stored display names, in `BTreeMap` iteration
order. -/
def Employees.list (es : Employees) : List Str :=
  es.index.map (fun p => p.2.name)

/-- `Employees::create`: insert if the key is vacant, otherwise a
`Conflict` without mutation.  Returns the result together with the
updated collection (mutation of `&mut self`). -/
def Employees.create (es : Employees) (employee : Str) :
    Except QueryError Str × Employees :=
  if SMap.containsK (Employees.to_key employee) es.index then
    (.error (.Conflict (str "Employee \"" ++ employee ++ str "\" already exists")), es)
  else
    (.ok (Employees.to_name employee),
      { index := SMap.insertS (Employees.to_key employee) (Employee.new employee) es.index })

/-- `Employees::delete`: remove if present, otherwise `NotFound` without
mutation. -/
def Employees.delete (es : Employees) (employee : Str) :
    Except QueryError Unit × Employees :=
  if SMap.containsK (Employees.to_key employee) es.index then
    (.ok (), { index := SMap.erase (Employees.to_key employee) es.index })
  else
    (.error (.NotFound (str "Employee \"" ++ employee ++ str "\" not found")), es)

/-! ## `src/database/store/departments.rs` -/

/-- `to_key` from `src/database/store/departments.rs`:
`value.to_uppercase()`. -/
def Departments.to_key (value : Str) : Str := strToUppercase value

/-- `to_name` from `src/database/store/departments.rs`: char-wise title
casing of the whole string (first character uppercased, the rest
lowercased). -/
def Departments.to_name (value : Str) : Str := titleCase value

/-- `Department` from `src/database/store/departments.rs`. -/
structure Department where
  name : Str
  employees : Employees
deriving DecidableEq

/-- `Department::new`. -/
def Department.new (name : Str) : Department :=
  { name := Departments.to_name name, employees := Employees.new }

/-- `Department::assign` (delegates to `Employees::create`). -/
def Department.assign (d : Department) (employee_name : Str) :
    Except QueryError Str × Department :=
  match d.employees.create employee_name with
  | (r, es) => (r, { d with employees := es })

/-- `Departments` from `src/database/store/departments.rs`. -/
structure Departments where
  index : SMap Department
deriving DecidableEq

/-- `Departments::new`. -/
def Departments.new : Departments := { index := [] }

/-- `Departments::department` (and `department_mut`, which performs the
same lookup): lookup by normalized key. -/
def Departments.department (ds : Departments) (department_name : Str) :
    Except QueryError Department :=
  match SMap.find? (Departments.to_key department_name) ds.index with
  | none => .error (.NotFound
      (str "Department \"" ++ department_name ++ str "\" not found"))
  | some department => .ok department

/-- `Departments::list`: the stored display names, in `BTreeMap`
iteration order. -/
def Departments.list (ds : Departments) : List Str :=
  ds.index.map (fun p => p.2.name)

/-- `Departments::create`. -/
def Departments.create (ds : Departments) (department : Str) :
    Except QueryError Str × Departments :=
  if SMap.containsK (Departments.to_key department) ds.index then
    (.error (.Conflict (str "Department \"" ++ department ++ str "\" already exists")), ds)
  else
    (.ok (Departments.to_name department),
      { index := SMap.insertS (Departments.to_key department)
          (Department.new department) ds.index })

/-- `Departments::delete`: `BTreeMap::remove`, dropping the department
together with its whole employee collection. -/
def Departments.delete (ds : Departments) (department : Str) :
    Except QueryError Str × Departments :=
  if SMap.containsK (Departments.to_key department) ds.index then
    (.ok (Departments.to_name department),
      { index := SMap.erase (Departments.to_key department) ds.index })
  else
    (.error (.NotFound (str "Department \"" ++ department ++ str "\" not found")), ds)

/-! ## `src/database/store.rs` -/

/-- `Store` from `src/database/store.rs`. -/
structure Store where
  index : Departments
deriving DecidableEq

/-- `Store::new`. -/
def Store.new : Store := { index := Departments.new }

/-- `Store::departments`. -/
def Store.departments (s : Store) : Departments := s.index

/-- `Store::department` (and `department_mut`: same lookup). -/
def Store.department (s : Store) (department_name : Str) :
    Except QueryError Department :=
  s.index.department department_name

/-! ## `src/database/commands.rs` -/

/-- `Command` from `src/database/commands.rs`. -/
inductive Command where
  | EmptyCommand
  | InvalidCommandErr (command : Str)
  | SyntaxErr (message : Str)
  | Exit
  | Help
  | ShowDepartments
  | ListEmployees
  | ListEmployeesByDepartment
  | ListEmployeesInDepartment (department : Str)
  | FormDepartment (department : Str)
  | AssignEmployeeToDepartment (employee department : Str)
  | TransferEmployeeBetweenDepartments (employee from_department to_department : Str)
  | PullEmployeeFromDepartment (employee department : Str)
  | DissolveDepartment (department : Str)
deriving DecidableEq

/-- The fixed syntax-error text of `parse_assign`. -/
def ASSIGN_SYNTAX_ERR : Str :=
  str "\"Assign\" command must specify an employee to assign and a department to assign to"

/-- The fixed syntax-error text of `parse_pull`. -/
def PULL_SYNTAX_ERR : Str :=
  str "\"Pull\" command must specify an employee to pull and a department to pull from"

/-- The fixed syntax-error text of `parse_transfer`. -/
def TRANSFER_SYNTAX_ERR : Str :=
  str "\"Transfer\" command must specify an employee, a department to transfer from, and a department to transfer to"

/-- `parse_assign`: consumes the token iterator from the back
(`next_back` = `getLast?` plus `dropLast`), then joins the remaining
front tokens with single spaces. -/
def parse_assign (tokens : List Str) : Command :=
  match tokens.getLast? with
  | none => .SyntaxErr ASSIGN_SYNTAX_ERR
  | some department =>
    match tokens.dropLast.getLast? with
    | none => .SyntaxErr ASSIGN_SYNTAX_ERR
    | some group_op =>
      if strToUppercase group_op = str "TO" then
        match tokens.dropLast.dropLast with
        | [] => .SyntaxErr ASSIGN_SYNTAX_ERR
        | employee_first_name :: more =>
          .AssignEmployeeToDepartment (joinSpaces (employee_first_name :: more)) department
      else .SyntaxErr ASSIGN_SYNTAX_ERR

/-- `parse_dissolve`. -/
def parse_dissolve (tokens : List Str) : Command :=
  match tokens with
  | [] => .SyntaxErr (str "\"Dissolve\" command must specify a department to dissolve")
  | department :: rest =>
    match rest with
    | _ :: _ => .SyntaxErr (str "Due to company policy, department names can only be one word long")
    | [] => .DissolveDepartment department

/-- `parse_form`. -/
def parse_form (tokens : List Str) : Command :=
  match tokens with
  | [] => .SyntaxErr (str "\"Form\" command must specify a department to form")
  | department :: rest =>
    match rest with
    | _ :: _ => .SyntaxErr (str "Due to company policy, department names can only be one word long")
    | [] => .FormDepartment department

/-- `parse_pull`: mirror of `parse_assign` with the keyword `FROM`. -/
def parse_pull (tokens : List Str) : Command :=
  match tokens.getLast? with
  | none => .SyntaxErr PULL_SYNTAX_ERR
  | some department =>
    match tokens.dropLast.getLast? with
    | none => .SyntaxErr PULL_SYNTAX_ERR
    | some group_op =>
      if strToUppercase group_op = str "FROM" then
        match tokens.dropLast.dropLast with
        | [] => .SyntaxErr PULL_SYNTAX_ERR
        | employee_first_name :: more =>
          .PullEmployeeFromDepartment (joinSpaces (employee_first_name :: more)) department
      else .SyntaxErr PULL_SYNTAX_ERR

/-- `parse_show`. -/
def parse_show (tokens : List Str) : Command :=
  match tokens with
  | [] => .SyntaxErr (str "\"Show\" command must specify a list name")
  | list_name :: rest =>
    if strToUppercase list_name = str "DEPARTMENTS" ∨ strToUppercase list_name = str "DEPT" ∨
        strToUppercase list_name = str "DEPARTMENT" ∨ strToUppercase list_name = str "DEPTS" then
      match rest with
      | [] => .ShowDepartments
      | extra_token :: _ => .SyntaxErr (str "Unexpected token \"" ++ extra_token ++
          str "\" after list name \"" ++ list_name ++ str "\"")
    else .SyntaxErr (str "Cannot show \"" ++ list_name ++ str "\": list does not exist")

/-- `parse_transfer`: consumes the token iterator from both ends. -/
def parse_transfer (tokens : List Str) : Command :=
  match tokens.getLast? with
  | none => .SyntaxErr TRANSFER_SYNTAX_ERR
  | some to_department =>
    match tokens.dropLast.getLast? with
    | none => .SyntaxErr TRANSFER_SYNTAX_ERR
    | some to_op =>
      if strToUppercase to_op = str "TO" then
        match tokens.dropLast.dropLast.getLast? with
        | none => .SyntaxErr TRANSFER_SYNTAX_ERR
        | some from_department =>
          match tokens.dropLast.dropLast.dropLast.getLast? with
          | none => .SyntaxErr TRANSFER_SYNTAX_ERR
          | some from_op =>
            if strToUppercase from_op = str "FROM" then
              match tokens.dropLast.dropLast.dropLast.dropLast with
              | [] => .SyntaxErr TRANSFER_SYNTAX_ERR
              | employee_first_name :: more =>
                .TransferEmployeeBetweenDepartments
                  (joinSpaces (employee_first_name :: more)) from_department to_department
            else .SyntaxErr TRANSFER_SYNTAX_ERR
      else .SyntaxErr TRANSFER_SYNTAX_ERR

/-- `parse` from `src/database/commands.rs`: tokenize on whitespace and
dispatch on the (case-insensitively compared) first token; the `LIST`
branch is inline in the source and inline here. -/
def parse (command_string : Str) : Command :=
  match splitWS command_string with
  | [] => .EmptyCommand
  | command_token :: tokens =>
    let c := strToUppercase command_token
    if c = str "EXIT" ∨ c = str "QUIT" ∨ c = str "LEAVE" ∨ c = str "BYE" then .Exit
    else if c = str "HELP" ∨ c = str "HALP" then .Help
    else if c = str "SHOW" then parse_show tokens
    else if c = str "LIST" then
      match tokens with
      | [] => .SyntaxErr (str "\"List\" command must specify a list name")
      | list_name :: rest =>
        if strToUppercase list_name = str "EMPLOYEES" ∨
            strToUppercase list_name = str "EMPLOYEE" then
          match rest with
          | [] => .ListEmployees
          | group_op :: rest2 =>
            if strToUppercase group_op = str "BY" then
              match rest2 with
              | [] => .SyntaxErr (str "\"List employees by\" must specify a group by field")
              | group_list :: rest3 =>
                if strToUppercase group_list = str "DEPARTMENT" then
                  match rest3 with
                  | [] => .ListEmployeesByDepartment
                  | extra_token :: _ => .SyntaxErr (str "Unexpected token \"" ++ extra_token ++
                      str "\" after group by field \"" ++ group_list ++ str "\"")
                else .SyntaxErr (str "\"" ++ group_list ++
                    str "\" is not a field employees can by grouped by")
            else if strToUppercase group_op = str "IN" then
              match rest2 with
              | [] => .SyntaxErr (str "Command \"List employees in\" must specify a department name")
              | department_name :: rest3 =>
                match rest3 with
                | [] => .ListEmployeesInDepartment department_name
                | extra_token :: _ => .SyntaxErr (str "Unexpected token \"" ++ extra_token ++
                    str "\" after department name \"" ++ department_name ++ str "\"")
            else .SyntaxErr (str "Unexpected token \"" ++ group_op ++
                str "\" after list name \"" ++ list_name ++ str "\"")
        else .SyntaxErr (str "Cannot list \"" ++ list_name ++ str "\": list does not exist")
    else if c = str "ASSIGN" then parse_assign tokens
    else if c = str "TRANSFER" then parse_transfer tokens
    else if c = str "PULL" then parse_pull tokens
    else if c = str "FORM" then parse_form tokens
    else if c = str "DISSOLVE" then parse_dissolve tokens
    else .InvalidCommandErr command_token

/-- `help` from `src/database/commands.rs`: the static help text. -/
def help : Str :=
  str "\nAvailable Operations:\n- \"Help\" - display available operations (this help message)\n- \"Exit\" - quits the program\n- \"Show departments\" - list departments alphabetically\n- \"List employees\" - list employees alphabetically\n- \"List employees by department\" - list employees and their dept, grouped by dept. alphabetically, sorted alphabetically\n- \"List employees in {department}\" - list employees in a dept, sorted alphabetically\n- \"Form {department}\" - create new department\n- \"Assign {employee} to {department}\" - create new employee under department\n- \"Transfer {employee} from {department} to {department}\" - move employee from first department to second\n- \"Pull {employee} from {department}\" - remove employee from department\n- \"Dissolve {department}\" - remove department and all employees in it\n"

/-! ## `src/database.rs` -/

/-- `Table` from `src/database.rs`.  A `HashMap<String, String>` row is
modelled as an association list in the insertion order of the source's
`insert` calls (only its contents matter to the code). -/
structure Table where
  title : Str
  headers : List Str
  data : List (List (Str × Str))
deriving DecidableEq

/-- `QueryResponse` from `src/database.rs`. -/
inductive QueryResponse where
  | Exit
  | NoOp
  | Message (message : Str)
  | Table (table : Table)
deriving DecidableEq

/-- `Database` from `src/database.rs`. -/
structure Database where
  store : Store
deriving DecidableEq

/-- `Database::new`. -/
def Database.new : Database := { store := Store.new }

/-- `format_query_error` from `src/database.rs`. -/
def format_query_error (error : QueryError) : QueryResponse :=
  match error with
  | .Conflict message => .Message (str "ERROR: Query conflict: " ++ message)
  | .NotFound message => .Message (str "ERROR: Query target not found: " ++ message)

/-- Helper: writes an updated department back into the store at the given
department name's key; models mutation through the `&mut Department`
returned by `department_mut`. -/
def Store.putBack (s : Store) (department_name : Str) (d : Department) : Store :=
  { index := { index :=
      SMap.setVal (Departments.to_key department_name) d s.index.index } }

/-- `Database::create_department`. -/
def Database.create_department (db : Database) (department_name : Str) :
    QueryResponse × Database :=
  match db.store.index.create department_name with
  | (.ok department, ds) =>
    (.Message (str "Formed \"" ++ department ++ str "\" department"), { store := { index := ds } })
  | (.error query_error, ds) => (format_query_error query_error, { store := { index := ds } })

/-- `Database::create_employee` (the Assign command): `department_mut`
then `employees_mut().create`. -/
def Database.create_employee (db : Database) (employee_name department_name : Str) :
    QueryResponse × Database :=
  match db.store.department department_name with
  | .error query_error => (format_query_error query_error, db)
  | .ok department =>
    match department.employees.create employee_name with
    | (.ok employee, es) =>
      (.Message (str "Assigned employee \"" ++ employee ++ str "\" to " ++
          department.name ++ str " department"),
        db.store.putBack department_name { department with employees := es } |> Database.mk)
    | (.error query_error, _) => (format_query_error query_error, db)

/-- `Database::delete_department` (the Dissolve command). -/
def Database.delete_department (db : Database) (department_name : Str) :
    QueryResponse × Database :=
  match db.store.index.delete department_name with
  | (.ok department, ds) =>
    (.Message (str "Dissolved \"" ++ department ++ str "\" department"), { store := { index := ds } })
  | (.error query_error, ds) => (format_query_error query_error, { store := { index := ds } })

/-- `Database::delete_employee` (the Pull command): `department_mut` then
`employees_mut().delete`; the success message interpolates the raw
`employee_name` and `department_name` strings. -/
def Database.delete_employee (db : Database) (employee_name department_name : Str) :
    QueryResponse × Database :=
  match db.store.department department_name with
  | .error query_error => (format_query_error query_error, db)
  | .ok department =>
    match department.employees.delete employee_name with
    | (.error query_error, _) => (format_query_error query_error, db)
    | (.ok _, es) =>
      (.Message (str "Pulled employee \"" ++ employee_name ++
          str "\" from department \"" ++ department_name ++ str "\""),
        db.store.putBack department_name { department with employees := es } |> Database.mk)

/-- `Database::list_departments`. -/
def Database.list_departments (db : Database) : QueryResponse :=
  let departments := db.store.index.list
  .Table
    { title := str "Showing all Departments"
      headers := [str "Department"]
      data := departments.map (fun dept_name => [(str "Department", dept_name)]) }

/-- Stable insertion of `x` into a sorted list: `x` is placed before the
first element it compares `≤` to. -/
def insertLe (le : Str → Str → Bool) (x : Str) : List Str → List Str
  | [] => [x]
  | y :: t => if le x y then x :: y :: t else y :: insertLe le x t

/-- `Vec::sort_by_key(|name| name.to_uppercase())`: a stable sort
comparing uppercased keys.  Modelled as stable insertion sort, which is
extensionally equal to any stable sort for the same key order. -/
def sortByUpperKey : List Str → List Str
  | [] => []
  | x :: t => insertLe (fun a b => ! strLt (strToUppercase b) (strToUppercase a)) x
      (sortByUpperKey t)

/-- `Database::list_employees`: gathers `(department, employees.list())`
for every listed department name (each lookup `.unwrap()`ped — `none`
models the panic), flattens, and re-sorts the flat list by uppercased
name. -/
def Database.list_employees (db : Database) : Option QueryResponse :=
  let departments := db.store.index.list
  (departments.mapM (fun department_name =>
      match db.store.department department_name with
      | .error _ => none
      | .ok d => some (department_name, d.employees.list))).map
    (fun (department_employee_groups : List (Str × List Str)) =>
      let employees := department_employee_groups.flatMap (fun p => p.2)
      let employees := sortByUpperKey employees
      .Table
        { title := str "Showing all Employees"
          headers := [str "Employee"]
          data := employees.map (fun employee => [(str "Employee", employee)]) })

/-- `Database::list_employees_by_department`: same gather (with the same
`.unwrap()`s), flattened into (department, employee) pairs without any
joint re-sort. -/
def Database.list_employees_by_department (db : Database) : Option QueryResponse :=
  let departments := db.store.index.list
  (departments.mapM (fun department_name =>
      match db.store.department department_name with
      | .error _ => none
      | .ok d => some (department_name, d.employees.list))).map
    (fun (department_employee_groups : List (Str × List Str)) =>
      let department_employees := department_employee_groups.flatMap
        (fun p => p.2.map (fun employee_name => (p.1, employee_name)))
      .Table
        { title := str "Showing Employees grouped by Department"
          headers := [str "Department", str "Employee"]
          data := department_employees.map (fun (p : Str × Str) =>
            [(str "Department", p.1), (str "Employee", p.2)]) })

/-- `Database::list_employees_in_department`. -/
def Database.list_employees_in_department (db : Database) (department_name : Str) :
    QueryResponse :=
  match db.store.department department_name with
  | .ok department =>
    .Table
      { title := str "Showing Employees assigned to the " ++ department.name ++
          str " Department"
        headers := [str "Employee"]
        data := department.employees.list.map (fun employee_name =>
          [(str "Employee", employee_name)]) }
  | .error query_error => format_query_error query_error

/-- `Database::move_employee` (the Transfer command).  The two final
`.unwrap()`s are modelled by `none` on their error branches. -/
def Database.move_employee (db : Database)
    (employee_name from_department_name to_department_name : Str) :
    Option (QueryResponse × Database) :=
  if from_department_name = to_department_name then
    some (.Message (str "ERROR: Cannot move employee from department to same department"), db)
  else
    match db.store.department from_department_name with
    | .error query_error => some (format_query_error query_error, db)
    | .ok from_department =>
      match from_department.employees.employee employee_name with
      | .error query_error => some (format_query_error query_error, db)
      | .ok _ =>
        match db.store.department to_department_name with
        | .error query_error => some (format_query_error query_error, db)
        | .ok to_department =>
          match to_department.employees.create employee_name with
          | (.error _, _) =>
            some (format_query_error (.Conflict (str "Employee \"" ++ employee_name ++
                str "\" already exists in department \"" ++ to_department_name ++ str "\"")), db)
          | (.ok _, es) =>
            let store1 := db.store.putBack to_department_name
              { to_department with employees := es }
            match store1.department from_department_name with
            | .error _ => none
            | .ok from_department1 =>
              match from_department1.employees.delete employee_name with
              | (.error _, _) => none
              | (.ok _, es1) =>
                some (.Message (str "Employee \"" ++ employee_name ++
                    str "\" transferred from \"" ++ from_department_name ++
                    str "\" to \"" ++ to_department_name ++ str "\" department"),
                  store1.putBack from_department_name
                    { from_department1 with employees := es1 } |> Database.mk)

/-- `Database::query`: parse, dispatch, respond.  `none` models a panic
inside the dispatched operation. -/
def Database.query (db : Database) (query_string : Str) :
    Option (QueryResponse × Database) :=
  match parse query_string with
  | .EmptyCommand => some (.NoOp, db)
  | .Exit => some (.Exit, db)
  | .InvalidCommandErr command => some (.Message (str "ERROR: Invalid command \"" ++ command ++
      str "\". Please check your spelling, or type \"Help\" for the list of available commands"), db)
  | .SyntaxErr syntax_error_message =>
    some (.Message (str "ERROR: Invalid command syntax: " ++ syntax_error_message), db)
  | .Help => some (.Message help, db)
  | .ShowDepartments => some (db.list_departments, db)
  | .FormDepartment department_name => some (db.create_department department_name)
  | .ListEmployees => (db.list_employees).map (fun r => (r, db))
  | .ListEmployeesByDepartment => (db.list_employees_by_department).map (fun r => (r, db))
  | .ListEmployeesInDepartment department_name =>
    some (db.list_employees_in_department department_name, db)
  | .AssignEmployeeToDepartment employee_name department_name =>
    some (db.create_employee employee_name department_name)
  | .TransferEmployeeBetweenDepartments employee_name from_department_name to_department_name =>
    db.move_employee employee_name from_department_name to_department_name
  | .PullEmployeeFromDepartment employee_name department_name =>
    some (db.delete_employee employee_name department_name)
  | .DissolveDepartment department_name => some (db.delete_department department_name)

/-! ## Supporting definitions for the claims -/

/-- Well-formedness of a store: the department `BTreeMap` and every
department's employee `BTreeMap` are strictly sorted (true of every real
`BTreeMap`, and an invariant of the model). -/
def Store.WFS (s : Store) : Prop :=
  SMap.WF s.index.index ∧ ∀ p ∈ s.index.index, SMap.WF p.2.employees.index

/-- A response is an error response exactly when it is a message carrying
the `"ERROR: "` prefix every error path of the executor emits. -/
def isErrMessage (r : QueryResponse) : Bool :=
  match r with
  | .Message m => decide (m.take 7 = str "ERROR: ")
  | _ => false

/-- One create-or-conflict step into a keyed map: the common shape of
`Departments::create` and `Employees::create` (insert `val x` at `key x`
if vacant, otherwise leave the map unchanged). -/
def createStep {V : Type} (key : Str → Str) (val : Str → V) (m : SMap V) (x : Str) : SMap V :=
  if SMap.containsK (key x) m then m else SMap.insertS (key x) (val x) m

/-- The store-level create and delete operations of the public interface:
Form/Dissolve on the department collection and Assign/Pull on a named
department's employee collection (as executed by the `Database` methods,
with responses dropped). -/
inductive StoreOp where
  | formDept (name : Str)
  | dissolveDept (name : Str)
  | assignEmp (department employee : Str)
  | pullEmp (department employee : Str)

/-- Executes one `StoreOp` against a store. -/
def StoreOp.apply (s : Store) : StoreOp → Store
  | .formDept n => { index := (s.index.create n).2 }
  | .dissolveDept n => { index := (s.index.delete n).2 }
  | .assignEmp d e =>
    match SMap.find? (Departments.to_key d) s.index.index with
    | none => s
    | some department =>
      s.putBack d { department with employees := (department.employees.create e).2 }
  | .pullEmp d e =>
    match SMap.find? (Departments.to_key d) s.index.index with
    | none => s
    | some department =>
      s.putBack d { department with employees := (department.employees.delete e).2 }

/-- The store reached from the empty store by a sequence of create/delete
operations. -/
def runOps (ops : List StoreOp) : Store := ops.foldl StoreOp.apply Store.new

/-- The specification's right-to-left description of the ASSIGN grammar,
written from the claim's words (for the refinement proof `C7...`): the
last token is the department, the second-to-last must equal `TO`
case-insensitively, the remaining front tokens (at least one) joined with
single spaces form the employee; every malformed shape yields the single
fixed syntax-error message. -/
def assignSpec (tokens : List Str) : Command :=
  match tokens.reverse with
  | department :: to_op :: front_rev =>
    if strToUppercase to_op = str "TO" ∧ front_rev ≠ [] then
      .AssignEmployeeToDepartment (joinSpaces front_rev.reverse) department
    else .SyntaxErr ASSIGN_SYNTAX_ERR
  | _ => .SyntaxErr ASSIGN_SYNTAX_ERR

/-- One Assign command into a named department, at the department
collection level: `department_mut` followed by `employees_mut().create`,
result dropped. -/
def assignStep (department_name : Str) (ds : Departments) (employee_name : Str) :
    Departments :=
  match SMap.find? (Departments.to_key department_name) ds.index with
  | none => ds
  | some department =>
    { index := SMap.setVal (Departments.to_key department_name)
        { department with employees := (department.employees.create employee_name).2 }
        ds.index }

/-- Repeated Assign commands into one named department (used to state the
cascade-delete claim). -/
def Departments.assignAll (ds : Departments) (department_name : Str) (names : List Str) :
    Departments :=
  names.foldl (assignStep department_name) ds

/-! ## Lemmas and claim theorems -/

theorem strLt_irrefl (a : Str) : strLt a a = false := by
  induction a with
  | nil => rfl
  | cons c t ih => simp [strLt, ih]

theorem strLt_asymm : ∀ {a b : Str}, strLt a b = true → strLt b a = false := by
  intro a
  induction a with
  | nil => intro b h; cases b <;> simp [strLt]
  | cons c t ih =>
    intro b h
    cases b with
    | nil => simp [strLt] at h
    | cons d s =>
      simp only [strLt] at h ⊢
      by_cases hcd : c < d
      · have : ¬ d < c := by omega
        simp [hcd, this]
      · by_cases hdc : d < c
        · simp [hcd, hdc] at h
        · simp only [hcd, hdc, if_false] at h
          simp [hcd, hdc, ih h]

theorem strLt_trans : ∀ {a b c : Str}, strLt a b = true → strLt b c = true →
    strLt a c = true := by
  intro a
  induction a with
  | nil =>
    intro b c hab hbc
    cases b with
    | nil => simp [strLt] at hab
    | cons d s => cases c with
      | nil => simp [strLt] at hbc
      | cons e u => simp [strLt]
  | cons x t ih =>
    intro b c hab hbc
    cases b with
    | nil => simp [strLt] at hab
    | cons d s =>
      cases c with
      | nil => simp [strLt] at hbc
      | cons e u =>
        simp only [strLt] at hab hbc ⊢
        by_cases hxd : x < d
        · by_cases hde : d < e
          · have : x < e := by omega
            simp [this]
          · simp only [hde, if_false] at hbc
            by_cases hed : e < d
            · simp [hed] at hbc
            · have hde' : d = e := by omega
              subst hde'
              simp [hxd]
        · simp only [hxd, if_false] at hab
          by_cases hdx : d < x
          · simp [hdx] at hab
          · have hxd' : x = d := by omega
            subst hxd'
            by_cases hxe : x < e
            · simp [hxe]
            · simp only [hxe, if_false] at hbc
              by_cases hex : e < x
              · simp [hex] at hbc
              · have : x = e := by omega
                subst this
                simp only [lt_irrefl, if_false] at hab hbc ⊢
                exact ih hab hbc

theorem strLt_conn : ∀ {a b : Str}, a ≠ b → strLt a b = false → strLt b a = true := by
  intro a
  induction a with
  | nil =>
    intro b hne hab
    cases b with
    | nil => exact absurd rfl hne
    | cons d s => simp [strLt] at hab
  | cons c t ih =>
    intro b hne hab
    cases b with
    | nil => simp [strLt]
    | cons d s =>
      simp only [strLt] at hab ⊢
      by_cases hcd : c < d
      · simp [hcd] at hab
      · by_cases hdc : d < c
        · simp [hdc]
        · have hcd' : c = d := by omega
          subst hcd'
          simp only [lt_irrefl, if_false] at hab ⊢
          have hts : t ≠ s := by
            intro h
            exact hne (by rw [h])
          exact ih hts hab

theorem strLt_ne {a b : Str} (h : strLt a b = true) : a ≠ b := by
  intro he
  subst he
  rw [strLt_irrefl] at h
  cases h

theorem SMap.insertS_cons_lt {V : Type} {k k' : Str} {v v' : V} {t : SMap V}
    (h : strLt k k' = true) :
    SMap.insertS k v ((k', v') :: t) = (k, v) :: (k', v') :: t := by
  simp [SMap.insertS, h]

theorem SMap.insertS_cons_eq {V : Type} {k k' : Str} {v v' : V} {t : SMap V}
    (h : strLt k k' = false) (he : k = k') :
    SMap.insertS k v ((k', v') :: t) = (k, v) :: t := by
  subst he
  simp [SMap.insertS, strLt_irrefl]

theorem SMap.insertS_cons_gt {V : Type} {k k' : Str} {v v' : V} {t : SMap V}
    (h : strLt k k' = false) (he : k ≠ k') :
    SMap.insertS k v ((k', v') :: t) = (k', v') :: SMap.insertS k v t := by
  simp [SMap.insertS, h, he]

theorem SMap.find?_eq_none {V : Type} {k : Str} {m : SMap V} :
    SMap.find? k m = none ↔ k ∉ SMap.keys m := by
  induction m with
  | nil => simp [SMap.find?, SMap.keys]
  | cons hd t ih =>
    obtain ⟨k', v⟩ := hd
    by_cases hk : k = k'
    · subst hk
      simp [SMap.find?, SMap.keys]
    · simp [SMap.find?, SMap.keys, hk, ih]

theorem SMap.mem_insertS {V : Type} {k : Str} {v : V} {x : Str × V} :
    ∀ {m : SMap V}, x ∈ SMap.insertS k v m → x = (k, v) ∨ x ∈ m := by
  intro m
  induction m with
  | nil => simp [SMap.insertS]
  | cons hd t ih =>
    obtain ⟨k', v'⟩ := hd
    intro hx
    by_cases h1 : strLt k k' = true
    · rw [SMap.insertS_cons_lt h1, List.mem_cons, List.mem_cons] at hx
      rcases hx with hx | hx | hx
      · exact Or.inl hx
      · exact Or.inr (by simp [hx])
      · exact Or.inr (List.mem_cons_of_mem _ hx)
    · have h1' : strLt k k' = false := by simpa using h1
      by_cases h2 : k = k'
      · rw [SMap.insertS_cons_eq h1' h2, List.mem_cons] at hx
        rcases hx with hx | hx
        · exact Or.inl hx
        · exact Or.inr (List.mem_cons_of_mem _ hx)
      · rw [SMap.insertS_cons_gt h1' h2, List.mem_cons] at hx
        rcases hx with hx | hx
        · exact Or.inr (by simp [hx])
        · rcases ih hx with hx' | hx'
          · exact Or.inl hx'
          · exact Or.inr (List.mem_cons_of_mem _ hx')

theorem SMap.WF_insertS {V : Type} {k : Str} {v : V} :
    ∀ {m : SMap V}, SMap.WF m → SMap.WF (SMap.insertS k v m) := by
  intro m
  induction m with
  | nil => intro _; simp [SMap.insertS, SMap.WF]
  | cons hd t ih =>
    obtain ⟨k', v'⟩ := hd
    intro h
    rw [SMap.WF, List.pairwise_cons] at h
    obtain ⟨hhd, ht⟩ := h
    by_cases h1 : strLt k k' = true
    · rw [SMap.insertS_cons_lt h1, SMap.WF, List.pairwise_cons]
      refine ⟨?_, List.pairwise_cons.mpr ⟨hhd, ht⟩⟩
      intro x hx
      rcases List.mem_cons.mp hx with hx' | hx'
      · subst hx'
        exact h1
      · exact strLt_trans h1 (hhd x hx')
    · have h1' : strLt k k' = false := by simpa using h1
      by_cases h2 : k = k'
      · rw [SMap.insertS_cons_eq h1' h2, SMap.WF, List.pairwise_cons]
        refine ⟨?_, ht⟩
        intro x hx
        rw [h2]
        exact hhd x hx
      · rw [SMap.insertS_cons_gt h1' h2, SMap.WF, List.pairwise_cons]
        refine ⟨?_, ih ht⟩
        intro x hx
        rcases SMap.mem_insertS hx with hx' | hx'
        · subst hx'
          exact strLt_conn h2 h1'
        · exact hhd x hx'

theorem SMap.find?_insertS_self {V : Type} {k : Str} {v : V} :
    ∀ (m : SMap V), SMap.find? k (SMap.insertS k v m) = some v := by
  intro m
  induction m with
  | nil => simp [SMap.insertS, SMap.find?]
  | cons hd t ih =>
    obtain ⟨k', v'⟩ := hd
    by_cases h1 : strLt k k' = true
    · simp [SMap.insertS_cons_lt h1, SMap.find?]
    · have h1' : strLt k k' = false := by simpa using h1
      by_cases h2 : k = k'
      · simp [SMap.insertS_cons_eq h1' h2, SMap.find?]
      · simp [SMap.insertS_cons_gt h1' h2, SMap.find?, h2, ih]

theorem SMap.find?_insertS_ne {V : Type} {k k2 : Str} {v : V} (hne : k2 ≠ k) :
    ∀ (m : SMap V), SMap.find? k2 (SMap.insertS k v m) = SMap.find? k2 m := by
  intro m
  induction m with
  | nil => simp [SMap.insertS, SMap.find?, hne]
  | cons hd t ih =>
    obtain ⟨k', v'⟩ := hd
    by_cases h1 : strLt k k' = true
    · simp [SMap.insertS_cons_lt h1, SMap.find?, hne]
    · have h1' : strLt k k' = false := by simpa using h1
      by_cases h2 : k = k'
      · subst h2
        simp [SMap.insertS_cons_eq h1' rfl, SMap.find?, hne]
      · by_cases h3 : k2 = k'
        · simp [SMap.insertS_cons_gt h1' h2, SMap.find?, h3]
        · simp [SMap.insertS_cons_gt h1' h2, SMap.find?, h3, ih]

theorem SMap.find?_erase_self {V : Type} {k : Str} :
    ∀ {m : SMap V}, SMap.WF m → SMap.find? k (SMap.erase k m) = none := by
  intro m
  induction m with
  | nil => intro _; simp [SMap.erase, SMap.find?]
  | cons hd t ih =>
    obtain ⟨k', v'⟩ := hd
    intro h
    rw [SMap.WF, List.pairwise_cons] at h
    obtain ⟨hhd, ht⟩ := h
    by_cases h1 : k = k'
    · subst h1
      simp only [SMap.erase, if_true]
      rw [SMap.find?_eq_none]
      intro hk
      rw [SMap.keys, List.mem_map] at hk
      obtain ⟨x, hx, hxk⟩ := hk
      exact strLt_ne (hhd x hx) hxk.symm
    · simp [SMap.erase, h1, SMap.find?, ih ht]

theorem SMap.find?_erase_ne {V : Type} {k k2 : Str} (hne : k2 ≠ k) :
    ∀ (m : SMap V), SMap.find? k2 (SMap.erase k m) = SMap.find? k2 m := by
  intro m
  induction m with
  | nil => simp [SMap.erase]
  | cons hd t ih =>
    obtain ⟨k', v'⟩ := hd
    by_cases h1 : k = k'
    · subst h1
      simp [SMap.erase, SMap.find?, hne]
    · by_cases h2 : k2 = k'
      · simp [SMap.erase, h1, SMap.find?, h2]
      · simp [SMap.erase, h1, SMap.find?, h2, ih]

theorem SMap.mem_erase_sub {V : Type} {k : Str} {x : Str × V} :
    ∀ {m : SMap V}, x ∈ SMap.erase k m → x ∈ m := by
  intro m
  induction m with
  | nil => simp [SMap.erase]
  | cons hd t ih =>
    obtain ⟨k', v'⟩ := hd
    intro hx
    by_cases h1 : k = k'
    · simp only [SMap.erase, h1, if_true] at hx
      exact List.mem_cons_of_mem _ hx
    · simp only [SMap.erase, h1, if_false, List.mem_cons] at hx
      rcases hx with hx | hx
      · simp [hx]
      · exact List.mem_cons_of_mem _ (ih hx)

theorem SMap.WF_erase {V : Type} {k : Str} :
    ∀ {m : SMap V}, SMap.WF m → SMap.WF (SMap.erase k m) := by
  intro m
  induction m with
  | nil => intro _; simp [SMap.erase, SMap.WF]
  | cons hd t ih =>
    obtain ⟨k', v'⟩ := hd
    intro h
    rw [SMap.WF, List.pairwise_cons] at h
    obtain ⟨hhd, ht⟩ := h
    by_cases h1 : k = k'
    · simpa [SMap.erase, h1] using ht
    · simp only [SMap.erase, h1, if_false]
      rw [SMap.WF, List.pairwise_cons]
      exact ⟨fun x hx => hhd x (SMap.mem_erase_sub hx), ih ht⟩

theorem SMap.erase_insertS {V : Type} {k : Str} {v : V} :
    ∀ {m : SMap V}, k ∉ SMap.keys m → SMap.erase k (SMap.insertS k v m) = m := by
  intro m
  induction m with
  | nil => intro _; simp [SMap.insertS, SMap.erase]
  | cons hd t ih =>
    obtain ⟨k', v'⟩ := hd
    intro h
    rw [SMap.keys, List.map_cons, List.mem_cons] at h
    push_neg at h
    obtain ⟨hk, hkt⟩ := h
    by_cases h1 : strLt k k' = true
    · simp [SMap.insertS_cons_lt h1, SMap.erase, hk]
    · have h1' : strLt k k' = false := by simpa using h1
      rw [SMap.insertS_cons_gt h1' hk]
      simp [SMap.erase, hk, ih hkt]

theorem SMap.find?_setVal_ne {V : Type} {k k2 : Str} {v : V} (hne : k2 ≠ k) :
    ∀ (m : SMap V), SMap.find? k2 (SMap.setVal k v m) = SMap.find? k2 m := by
  intro m
  induction m with
  | nil => simp [SMap.setVal]
  | cons hd t ih =>
    obtain ⟨k', v'⟩ := hd
    by_cases h1 : k = k'
    · subst h1
      simp [SMap.setVal, SMap.find?, hne]
    · by_cases h2 : k2 = k'
      · simp [SMap.setVal, h1, SMap.find?, h2]
      · simp [SMap.setVal, h1, SMap.find?, h2, ih]

theorem SMap.find?_setVal_self {V : Type} {k : Str} {v : V} :
    ∀ (m : SMap V), SMap.find? k (SMap.setVal k v m) =
      (SMap.find? k m).map (fun _ => v) := by
  intro m
  induction m with
  | nil => simp [SMap.setVal, SMap.find?]
  | cons hd t ih =>
    obtain ⟨k', v'⟩ := hd
    by_cases h1 : k = k'
    · simp [SMap.setVal, h1, SMap.find?]
    · simp [SMap.setVal, h1, SMap.find?, ih]

theorem SMap.keys_setVal {V : Type} {k : Str} {v : V} :
    ∀ (m : SMap V), SMap.keys (SMap.setVal k v m) = SMap.keys m := by
  intro m
  induction m with
  | nil => simp [SMap.setVal]
  | cons hd t ih =>
    obtain ⟨k', v'⟩ := hd
    by_cases h1 : k = k'
    · simp [SMap.setVal, h1, SMap.keys]
    · simp only [SMap.setVal, h1, if_false]
      simp only [SMap.keys, List.map_cons] at ih ⊢
      rw [ih]

theorem SMap.WF_setVal {V : Type} {k : Str} {v : V} :
    ∀ {m : SMap V}, SMap.WF m → SMap.WF (SMap.setVal k v m) := by
  intro m
  induction m with
  | nil => intro _; simp [SMap.setVal, SMap.WF]
  | cons hd t ih =>
    obtain ⟨k', v'⟩ := hd
    intro h
    rw [SMap.WF, List.pairwise_cons] at h
    obtain ⟨hhd, ht⟩ := h
    by_cases h1 : k = k'
    · simp only [SMap.setVal, h1, if_true]
      rw [SMap.WF, List.pairwise_cons]
      exact ⟨fun x hx => hhd x hx, ht⟩
    · simp only [SMap.setVal, h1, if_false]
      rw [SMap.WF, List.pairwise_cons]
      refine ⟨?_, ih ht⟩
      intro x hx
      have hx' : x.1 ∈ SMap.keys (SMap.setVal k v t) := by
        rw [SMap.keys, List.mem_map]
        exact ⟨x, hx, rfl⟩
      rw [SMap.keys_setVal] at hx'
      rw [SMap.keys, List.mem_map] at hx'
      obtain ⟨y, hy, hyx⟩ := hx'
      rw [← hyx]
      exact hhd y hy

theorem SMap.erase_setVal {V : Type} {k : Str} {v : V} :
    ∀ (m : SMap V), SMap.erase k (SMap.setVal k v m) = SMap.erase k m := by
  intro m
  induction m with
  | nil => simp [SMap.setVal]
  | cons hd t ih =>
    obtain ⟨k', v'⟩ := hd
    by_cases h1 : k = k'
    · simp [SMap.setVal, h1, SMap.erase]
    · simp [SMap.setVal, h1, SMap.erase, ih]

theorem SMap.count_keys_insertS {V : Type} {k : Str} {v : V} :
    ∀ {m : SMap V}, k ∉ SMap.keys m →
      (SMap.keys (SMap.insertS k v m)).count k = 1 := by
  intro m
  induction m with
  | nil => intro _; simp [SMap.insertS, SMap.keys]
  | cons hd t ih =>
    obtain ⟨k', v'⟩ := hd
    intro h
    rw [SMap.keys, List.map_cons, List.mem_cons] at h
    push_neg at h
    obtain ⟨hk, hkt⟩ := h
    by_cases h1 : strLt k k' = true
    · rw [SMap.insertS_cons_lt h1]
      simp only [SMap.keys, List.map_cons]
      rw [List.count_cons_self, List.count_cons_of_ne hk]
      have hnt : k ∉ List.map Prod.fst t := hkt
      simp [List.count_eq_zero.mpr hnt]
    · have h1' : strLt k k' = false := by simpa using h1
      rw [SMap.insertS_cons_gt h1' hk]
      simp only [SMap.keys, List.map_cons]
      rw [List.count_cons_of_ne hk]
      exact ih hkt

theorem SMap.insertS_comm {V : Type} {k1 k2 : Str} {v1 v2 : V} (hne : k1 ≠ k2) :
    ∀ {m : SMap V}, k1 ∉ SMap.keys m → k2 ∉ SMap.keys m →
      SMap.insertS k1 v1 (SMap.insertS k2 v2 m) =
        SMap.insertS k2 v2 (SMap.insertS k1 v1 m) := by
  intro m
  induction m with
  | nil =>
    intro _ _
    have e2 : SMap.insertS k2 v2 ([] : SMap V) = [(k2, v2)] := rfl
    have e1 : SMap.insertS k1 v1 ([] : SMap V) = [(k1, v1)] := rfl
    rw [e2, e1]
    by_cases h12 : strLt k1 k2 = true
    · have h21 : strLt k2 k1 = false := strLt_asymm h12
      rw [SMap.insertS_cons_lt h12, SMap.insertS_cons_gt h21 (Ne.symm hne)]
      rfl
    · have h12' : strLt k1 k2 = false := by simpa using h12
      have h21 : strLt k2 k1 = true := strLt_conn hne h12'
      rw [SMap.insertS_cons_gt h12' hne, SMap.insertS_cons_lt h21]
      rfl
  | cons hd t ih =>
    obtain ⟨a, w⟩ := hd
    intro h1m h2m
    rw [SMap.keys, List.map_cons, List.mem_cons] at h1m h2m
    push_neg at h1m h2m
    obtain ⟨h1a, h1t⟩ := h1m
    obtain ⟨h2a, h2t⟩ := h2m
    by_cases hL1 : strLt k1 a = true
    · by_cases hL2 : strLt k2 a = true
      · by_cases h12 : strLt k1 k2 = true
        · have h21 : strLt k2 k1 = false := strLt_asymm h12
          rw [SMap.insertS_cons_lt hL2, SMap.insertS_cons_lt h12,
            SMap.insertS_cons_lt hL1, SMap.insertS_cons_gt h21 (Ne.symm hne),
            SMap.insertS_cons_lt hL2]
        · have h12' : strLt k1 k2 = false := by simpa using h12
          have h21 : strLt k2 k1 = true := strLt_conn hne h12'
          rw [SMap.insertS_cons_lt hL2, SMap.insertS_cons_gt h12' hne,
            SMap.insertS_cons_lt hL1, SMap.insertS_cons_lt h21]
      · have hL2' : strLt k2 a = false := by simpa using hL2
        have h21 : strLt k2 k1 = false := by
          by_cases hc : strLt k2 k1 = true
          · exact absurd (strLt_trans hc hL1) (by simpa using hL2)
          · simpa using hc
        rw [SMap.insertS_cons_gt hL2' h2a, SMap.insertS_cons_lt hL1,
          SMap.insertS_cons_lt hL1, SMap.insertS_cons_gt h21 (Ne.symm hne),
          SMap.insertS_cons_gt hL2' h2a]
    · have hL1' : strLt k1 a = false := by simpa using hL1
      by_cases hL2 : strLt k2 a = true
      · have h12 : strLt k1 k2 = false := by
          by_cases hc : strLt k1 k2 = true
          · exact absurd (strLt_trans hc hL2) (by simpa using hL1)
          · simpa using hc
        rw [SMap.insertS_cons_lt hL2, SMap.insertS_cons_gt h12 hne,
          SMap.insertS_cons_gt hL1' h1a, SMap.insertS_cons_lt hL2]
      · have hL2' : strLt k2 a = false := by simpa using hL2
        rw [SMap.insertS_cons_gt hL2' h2a, SMap.insertS_cons_gt hL1' h1a,
          SMap.insertS_cons_gt hL1' h1a, SMap.insertS_cons_gt hL2' h2a,
          ih h1t h2t]

/-! ## Supporting lemmas -/

theorem isErrMessage_format (e : QueryError) : isErrMessage (format_query_error e) = true := by
  cases e with
  | Conflict m => rfl
  | NotFound m => rfl

theorem SMap.find?_some_mem {V : Type} {k : Str} {v : V} :
    ∀ {m : SMap V}, SMap.find? k m = some v → (k, v) ∈ m := by
  intro m
  induction m with
  | nil => intro h; simp [SMap.find?] at h
  | cons hd t ih =>
    obtain ⟨k', v'⟩ := hd
    intro h
    by_cases hk : k = k'
    · subst hk
      simp [SMap.find?] at h
      subst h
      exact List.mem_cons_self _ _
    · simp only [SMap.find?, hk, if_false] at h
      exact List.mem_cons_of_mem _ (ih h)

theorem SMap.setVal_cons_eq {V : Type} {k k' : Str} {v v' : V} {t : SMap V}
    (he : k = k') : SMap.setVal k v ((k', v') :: t) = (k', v) :: t := by
  subst he
  simp [SMap.setVal]

theorem SMap.setVal_cons_ne {V : Type} {k k' : Str} {v v' : V} {t : SMap V}
    (he : k ≠ k') : SMap.setVal k v ((k', v') :: t) = (k', v') :: SMap.setVal k v t := by
  simp [SMap.setVal, he]

theorem SMap.mem_setVal {V : Type} {k : Str} {v : V} {x : Str × V} :
    ∀ {m : SMap V}, x ∈ SMap.setVal k v m → x = (k, v) ∨ x ∈ m := by
  intro m
  induction m with
  | nil => intro h; simp [SMap.setVal] at h
  | cons hd t ih =>
    obtain ⟨k', v'⟩ := hd
    intro hx
    by_cases hk : k = k'
    · subst hk
      rw [SMap.setVal_cons_eq rfl, List.mem_cons] at hx
      rcases hx with hx | hx
      · exact Or.inl hx
      · exact Or.inr (List.mem_cons_of_mem _ hx)
    · rw [SMap.setVal_cons_ne hk, List.mem_cons] at hx
      rcases hx with hx | hx
      · exact Or.inr (by simp [hx])
      · rcases ih hx with hx' | hx'
        · exact Or.inl hx'
        · exact Or.inr (List.mem_cons_of_mem _ hx')

theorem splitWSAux_mem : ∀ (l acc w : Str), w ∈ splitWSAux l acc →
    ∀ c ∈ w, c ∈ l ∨ c ∈ acc := by
  intro l
  induction l with
  | nil =>
    intro acc w hw c hc
    simp only [splitWSAux] at hw
    by_cases ha : acc.isEmpty = true
    · rw [if_pos ha] at hw
      simp at hw
    · rw [if_neg ha, List.mem_singleton] at hw
      subst hw
      exact Or.inr (List.mem_reverse.mp hc)
  | cons c' rest ih =>
    intro acc w hw c hc
    simp only [splitWSAux] at hw
    by_cases hws : isWS c' = true
    · rw [if_pos hws] at hw
      by_cases ha : acc.isEmpty = true
      · rw [if_pos ha] at hw
        rcases ih [] w hw c hc with h | h
        · exact Or.inl (List.mem_cons_of_mem _ h)
        · simp at h
      · rw [if_neg ha, List.mem_cons] at hw
        rcases hw with h | h
        · subst h
          exact Or.inr (List.mem_reverse.mp hc)
        · rcases ih [] w h c hc with h2 | h2
          · exact Or.inl (List.mem_cons_of_mem _ h2)
          · simp at h2
    · rw [if_neg hws] at hw
      rcases ih (c' :: acc) w hw c hc with h | h
      · exact Or.inl (List.mem_cons_of_mem _ h)
      · rcases List.mem_cons.mp h with h2 | h2
        · exact Or.inl (by simp [h2])
        · exact Or.inr h2

theorem mem_splitWS {s w : Str} (hw : w ∈ splitWS s) {c : Nat} (hc : c ∈ w) : c ∈ s := by
  rcases splitWSAux_mem s [] w hw c hc with h | h
  · exact h
  · simp at h

theorem upperFirst_ascii : ∀ c : Nat, c < 128 →
    charToUppercase (upperFirst c) = charToUppercase c := by decide

theorem lowerFirst_ascii : ∀ c : Nat, c < 128 →
    charToUppercase (lowerFirst c) = charToUppercase c := by decide

theorem strToUppercase_map_lowerFirst : ∀ (l : Str), (∀ c ∈ l, c < 128) →
    strToUppercase (l.map lowerFirst) = strToUppercase l := by
  intro l
  induction l with
  | nil => intro _; rfl
  | cons d t ih =>
    intro h
    simp only [List.map_cons, strToUppercase, List.flatMap_cons] at *
    rw [lowerFirst_ascii d (h d (by simp)), ih (fun c hc => h c (by simp [hc]))]

theorem strToUppercase_titleCase {w : Str} (hw : ∀ c ∈ w, c < 128) :
    strToUppercase (titleCase w) = strToUppercase w := by
  cases w with
  | nil => rfl
  | cons c rest =>
    simp only [titleCase, strToUppercase, List.flatMap_cons]
    rw [upperFirst_ascii c (hw c (by simp))]
    congr 1
    exact strToUppercase_map_lowerFirst rest (fun c' hc' => hw c' (by simp [hc']))

theorem strToUppercase_joinTail : ∀ (ws : List Str),
    strToUppercase (ws.flatMap (fun w' => 32 :: w')) =
      (ws.map strToUppercase).flatMap (fun w' => 32 :: w') := by
  intro ws
  induction ws with
  | nil => rfl
  | cons w2 t ih =>
    simp only [List.flatMap_cons, List.map_cons]
    have h32 : strToUppercase ((32 : Nat) :: w2) = 32 :: strToUppercase w2 := rfl
    calc strToUppercase ((32 :: w2) ++ t.flatMap (fun w' => 32 :: w'))
        = strToUppercase (32 :: w2) ++ strToUppercase (t.flatMap (fun w' => 32 :: w')) :=
          List.flatMap_append ..
      _ = (32 :: strToUppercase w2) ++ (t.map strToUppercase).flatMap (fun w' => 32 :: w') := by
          rw [h32, ih]

theorem strToUppercase_joinSpaces : ∀ (l : List Str),
    strToUppercase (joinSpaces l) = joinSpaces (l.map strToUppercase) := by
  intro l
  cases l with
  | nil => rfl
  | cons w ws =>
    simp only [joinSpaces, List.map_cons]
    calc strToUppercase (w ++ ws.flatMap (fun w' => 32 :: w'))
        = strToUppercase w ++ strToUppercase (ws.flatMap (fun w' => 32 :: w')) :=
          List.flatMap_append ..
      _ = strToUppercase w ++ (ws.map strToUppercase).flatMap (fun w' => 32 :: w') := by
          rw [strToUppercase_joinTail]

theorem containsK_eq_false_iff {V : Type} {k : Str} {m : SMap V} :
    SMap.containsK k m = false ↔ k ∉ SMap.keys m := by
  unfold SMap.containsK
  rw [← SMap.find?_eq_none, ← Option.not_isSome_iff_eq_none]
  simp

theorem createStep_comm {V : Type} (key : Str → Str) (val : Str → V) {a b : Str}
    (hne : key a ≠ key b) (m : SMap V) :
    createStep key val (createStep key val m a) b =
      createStep key val (createStep key val m b) a := by
  unfold createStep
  by_cases ha : SMap.containsK (key a) m = true
  · by_cases hb : SMap.containsK (key b) m = true
    · simp [ha, hb]
    · have hka : SMap.containsK (key a) (SMap.insertS (key b) (val b) m) =
          SMap.containsK (key a) m := by
        unfold SMap.containsK
        rw [SMap.find?_insertS_ne hne]
      simp [ha, hb, hka]
  · by_cases hb : SMap.containsK (key b) m = true
    · have hkb : SMap.containsK (key b) (SMap.insertS (key a) (val a) m) =
          SMap.containsK (key b) m := by
        unfold SMap.containsK
        rw [SMap.find?_insertS_ne (Ne.symm hne)]
      simp [ha, hb, hkb]
    · have hka : SMap.containsK (key a) (SMap.insertS (key b) (val b) m) =
          SMap.containsK (key a) m := by
        unfold SMap.containsK
        rw [SMap.find?_insertS_ne hne]
      have hkb : SMap.containsK (key b) (SMap.insertS (key a) (val a) m) =
          SMap.containsK (key b) m := by
        unfold SMap.containsK
        rw [SMap.find?_insertS_ne (Ne.symm hne)]
      have ha' : SMap.containsK (key a) m = false := by simpa using ha
      have hb' : SMap.containsK (key b) m = false := by simpa using hb
      simp [ha, hb, hka, hkb]
      exact (SMap.insertS_comm hne
        (containsK_eq_false_iff.mp ha') (containsK_eq_false_iff.mp hb')).symm

theorem createStep_perm {V : Type} (key : Str → Str) (val : Str → V)
    {names names' : List Str}
    (hp : List.Pairwise (fun a b => key a ≠ key b) names)
    (hperm : names.Perm names') (m : SMap V) :
    names.foldl (createStep key val) m = names'.foldl (createStep key val) m := by
  refine hperm.foldl_eq' ?_ m
  intro x hx y hy z
  by_cases hxy : x = y
  · subst hxy; rfl
  · have hsym : Symmetric (fun a b : Str => key a ≠ key b) := fun _ _ h => Ne.symm h
    exact createStep_comm key val (hp.forall hsym hx hy hxy) z

theorem Store.eq_of_dept_index {s1 s2 : Store} (h : s1.index.index = s2.index.index) :
    s1 = s2 := by
  obtain ⟨⟨m1⟩⟩ := s1
  obtain ⟨⟨m2⟩⟩ := s2
  cases h
  rfl

theorem Employees.eq_of_emp_index {e1 e2 : Employees} (h : e1.index = e2.index) :
    e1 = e2 := by
  obtain ⟨m1⟩ := e1
  obtain ⟨m2⟩ := e2
  cases h
  rfl

theorem formDept_step_eq (s : Store) (n : Str) :
    (StoreOp.apply s (.formDept n)).index.index =
      createStep Departments.to_key Department.new s.index.index n := by
  unfold StoreOp.apply Departments.create createStep
  by_cases h : SMap.containsK (Departments.to_key n) s.index.index = true
  · simp [h]
  · simp [h]

theorem formDept_foldl_eq : ∀ (names : List Str) (s : Store),
    (names.foldl (fun st n => StoreOp.apply st (.formDept n)) s).index.index =
      names.foldl (createStep Departments.to_key Department.new) s.index.index := by
  intro names
  induction names with
  | nil => intro s; rfl
  | cons n t ih =>
    intro s
    rw [List.foldl_cons, List.foldl_cons, ih, formDept_step_eq]

theorem empCreate_step_eq (es : Employees) (n : Str) :
    ((es.create n).2).index = createStep Employees.to_key Employee.new es.index n := by
  unfold Employees.create createStep
  by_cases h : SMap.containsK (Employees.to_key n) es.index = true
  · simp [h]
  · simp [h]

theorem empCreate_foldl_eq : ∀ (names : List Str) (es : Employees),
    (names.foldl (fun e n => (Employees.create e n).2) es).index =
      names.foldl (createStep Employees.to_key Employee.new) es.index := by
  intro names
  induction names with
  | nil => intro es; rfl
  | cons n t ih =>
    intro es
    rw [List.foldl_cons, List.foldl_cons, ih, empCreate_step_eq]

theorem Employees.WF_create {es : Employees} (e : Str)
    (h : SMap.WF es.index) : SMap.WF ((es.create e).2).index := by
  unfold Employees.create
  by_cases hc : SMap.containsK (Employees.to_key e) es.index = true
  · simpa [hc] using h
  · simp only [hc]
    simpa using SMap.WF_insertS h

theorem Employees.WF_delete {es : Employees} (e : Str)
    (h : SMap.WF es.index) : SMap.WF ((es.delete e).2).index := by
  unfold Employees.delete
  by_cases hc : SMap.containsK (Employees.to_key e) es.index = true
  · simp only [hc]
    simpa using SMap.WF_erase h
  · simpa [hc] using h

theorem WFS_apply (s : Store) (op : StoreOp) (hs : s.WFS) : (StoreOp.apply s op).WFS := by
  obtain ⟨hd, he⟩ := hs
  cases op with
  | formDept n =>
    simp only [StoreOp.apply, Departments.create]
    by_cases h : SMap.containsK (Departments.to_key n) s.index.index = true
    · rw [if_pos h]
      exact ⟨hd, he⟩
    · rw [if_neg h]
      refine ⟨SMap.WF_insertS hd, ?_⟩
      intro p hp
      rcases SMap.mem_insertS hp with h1 | h1
      · subst h1
        simp [Department.new, Employees.new, SMap.WF]
      · exact he p h1
  | dissolveDept n =>
    simp only [StoreOp.apply, Departments.delete]
    by_cases h : SMap.containsK (Departments.to_key n) s.index.index = true
    · rw [if_pos h]
      exact ⟨SMap.WF_erase hd, fun p hp => he p (SMap.mem_erase_sub hp)⟩
    · rw [if_neg h]
      exact ⟨hd, he⟩
  | assignEmp d e =>
    simp only [StoreOp.apply]
    cases hf : SMap.find? (Departments.to_key d) s.index.index with
    | none => exact ⟨hd, he⟩
    | some dep =>
      simp only [Store.putBack]
      refine ⟨SMap.WF_setVal hd, ?_⟩
      intro p hp
      rcases SMap.mem_setVal hp with h1 | h1
      · subst h1
        exact Employees.WF_create e (he _ (SMap.find?_some_mem hf))
      · exact he p h1
  | pullEmp d e =>
    simp only [StoreOp.apply]
    cases hf : SMap.find? (Departments.to_key d) s.index.index with
    | none => exact ⟨hd, he⟩
    | some dep =>
      simp only [Store.putBack]
      refine ⟨SMap.WF_setVal hd, ?_⟩
      intro p hp
      rcases SMap.mem_setVal hp with h1 | h1
      · subst h1
        exact Employees.WF_delete e (he _ (SMap.find?_some_mem hf))
      · exact he p h1

theorem WFS_runOps_from : ∀ (ops : List StoreOp) (s : Store), s.WFS →
    (ops.foldl StoreOp.apply s).WFS := by
  intro ops
  induction ops with
  | nil => intro s hs; exact hs
  | cons op t ih =>
    intro s hs
    rw [List.foldl_cons]
    exact ih _ (WFS_apply s op hs)

theorem WFS_new : Store.new.WFS := by
  constructor
  · simp [Store.new, Departments.new, SMap.WF]
  · intro p hp
    simp [Store.new, Departments.new] at hp

theorem WFS_runOps (ops : List StoreOp) : (runOps ops).WFS :=
  WFS_runOps_from ops Store.new WFS_new

theorem assignStep_erase (d n : Str) (ds : Departments) :
    SMap.erase (Departments.to_key d) (assignStep d ds n).index =
      SMap.erase (Departments.to_key d) ds.index := by
  unfold assignStep
  cases hf : SMap.find? (Departments.to_key d) ds.index with
  | none => rfl
  | some dep => simp [SMap.erase_setVal]

theorem assignStep_presence (d n : Str) (ds : Departments) :
    (SMap.find? (Departments.to_key d) (assignStep d ds n).index).isSome =
      (SMap.find? (Departments.to_key d) ds.index).isSome := by
  unfold assignStep
  cases hf : SMap.find? (Departments.to_key d) ds.index with
  | none =>
    rw [hf]
  | some dep =>
    show (SMap.find? _ (SMap.setVal _ _ _)).isSome = _
    rw [SMap.find?_setVal_self, hf]
    rfl

theorem assignAll_erase (d : Str) : ∀ (names : List Str) (ds : Departments),
    SMap.erase (Departments.to_key d) (ds.assignAll d names).index =
      SMap.erase (Departments.to_key d) ds.index := by
  intro names
  induction names with
  | nil => intro ds; rfl
  | cons n t ih =>
    intro ds
    unfold Departments.assignAll at ih ⊢
    rw [List.foldl_cons, ih, assignStep_erase]

theorem assignAll_presence (d : Str) : ∀ (names : List Str) (ds : Departments),
    (SMap.find? (Departments.to_key d) (ds.assignAll d names).index).isSome =
      (SMap.find? (Departments.to_key d) ds.index).isSome := by
  intro names
  induction names with
  | nil => intro ds; rfl
  | cons n t ih =>
    intro ds
    unfold Departments.assignAll at ih ⊢
    rw [List.foldl_cons, ih, assignStep_presence]

/-! ## Claims -/

/-- **C2, counterexample.**  The claim states that a transfer whose raw
from- and to-department strings are equal immediately returns the message
`Cannot move employee from department to same department`; the query
actually returns that text with the `ERROR: ` prefix baked into the
returned message, as evaluated on the empty database with the command
`transfer a from B to B`. -/
theorem C2_counterexample :
    Database.new.query (str "transfer a from B to B") ≠
      some (.Message (str "Cannot move employee from department to same department"),
        Database.new) ∧
    Database.new.query (str "transfer a from B to B") =
      some (.Message (str "ERROR: Cannot move employee from department to same department"),
        Database.new) := by
  decide

/-- **C2, amended.**  For every database state and every transfer command
whose raw from-department string equals its raw to-department string
(exact string equality), the query immediately returns the message
`ERROR: Cannot move employee from department to same department` (the
claimed text carrying the executor's `ERROR: ` prefix) together with the
unchanged database; the result is the same for every store, so no
department lookup is consulted and no mutation happens, even when the
named department does not exist. -/
theorem C2_same_department_short_circuit (db : Database) (employee from_to line : Str)
    (h : parse line = .TransferEmployeeBetweenDepartments employee from_to from_to) :
    db.query line =
      some (.Message (str "ERROR: Cannot move employee from department to same department"),
        db) := by
  unfold Database.query
  rw [h]
  show db.move_employee employee from_to from_to = _
  unfold Database.move_employee
  rw [if_pos rfl]

theorem C2_same_department_short_circuit_witness :
    Database.new.query (str "transfer a from B to B") =
      some (.Message (str "ERROR: Cannot move employee from department to same department"),
        Database.new) :=
  C2_same_department_short_circuit Database.new (str "a") (str "B")
    (str "transfer a from B to B") (by decide)

/-- **C6, counterexample.**  The round trip `to_key (to_name x) = to_key x`
fails for the employee normalizer at `x = "a  b"` (the normalizer
collapses the double space, the key function does not) and for the
department normalizer at `x = "ß"` (`to_key` uppercases ß to `SS` while
`to_name` keeps only the first character `S` of that expansion). -/
theorem C6_counterexample :
    Employees.to_key (Employees.to_name (str "a  b")) ≠ Employees.to_key (str "a  b") ∧
    Departments.to_key (Departments.to_name (str "ß")) ≠ Departments.to_key (str "ß") := by
  decide

/-- **C6, amended.**  For every input whose characters are ASCII, the
department normalizer satisfies `to_key (to_name x) = to_key x`; the
employee normalizer satisfies it when additionally the input is
whitespace-normalized (splitting it on whitespace and re-joining with
single spaces reproduces it, i.e. single-space separators and no leading
or trailing whitespace). -/
theorem C6_round_trip_ascii (x : Str) (hascii : ∀ c ∈ x, c < 128) :
    Departments.to_key (Departments.to_name x) = Departments.to_key x ∧
    (joinSpaces (splitWS x) = x →
      Employees.to_key (Employees.to_name x) = Employees.to_key x) := by
  constructor
  · exact strToUppercase_titleCase hascii
  · intro hnorm
    show strToUppercase (joinSpaces ((splitWS x).map titleCase)) = strToUppercase x
    rw [strToUppercase_joinSpaces, List.map_map]
    have hcong : (splitWS x).map (strToUppercase ∘ titleCase) =
        (splitWS x).map strToUppercase := by
      apply List.map_congr_left
      intro w hw
      exact strToUppercase_titleCase (fun c hc => hascii c (mem_splitWS hw hc))
    rw [hcong, ← strToUppercase_joinSpaces, hnorm]

theorem C6_round_trip_ascii_witness :
    (∀ c ∈ str "gReEk SaLaD", c < 128) ∧
    Departments.to_key (Departments.to_name (str "gReEk SaLaD")) =
      Departments.to_key (str "gReEk SaLaD") ∧
    Employees.to_key (Employees.to_name (str "gReEk SaLaD")) =
      Employees.to_key (str "gReEk SaLaD") :=
  ⟨by decide, (C6_round_trip_ascii (str "gReEk SaLaD") (by decide)).1,
    (C6_round_trip_ascii (str "gReEk SaLaD") (by decide)).2 (by decide)⟩

/-- **C10 (code bug).**  `Database::query` is not total: forming the
department `ß` stores it under key `SS` (string uppercasing of ß) but
with display name `S` (the char-wise title casing keeps only the first
character of the two-character uppercase expansion), so the following
`list employees` query looks the listed display name `S` up under key
`S`, finds nothing, and `unwrap`s the failure — a panic, modelled as
`none`. -/
theorem C10_query_panics :
    Database.new.query (str "form ß") =
      some (.Message (str "Formed \"S\" department"),
        { store := { index := { index :=
            [(str "SS", { name := str "S", employees := Employees.new })] } } }) ∧
    Database.query
      { store := { index := { index :=
          [(str "SS", { name := str "S", employees := Employees.new })] } } }
      (str "list employees") = none := by
  decide

/-- **C4.**  On an empty department collection, `create d` returns
`Ok (to_name d)`; the subsequent `department d` lookup returns the stored
department, whose display name is `to_name d`; a second `create` of the
same name in any letter casing (any `d'` with `to_key d' = to_key d`)
fails with the Conflict error and leaves the collection — in particular
`list()` — unchanged. -/
theorem C4_create_find_conflict (d d' : Str)
    (hc : Departments.to_key d' = Departments.to_key d) :
    (Departments.new.create d).1 = .ok (Departments.to_name d) ∧
    ((Departments.new.create d).2).department d = .ok (Department.new d) ∧
    (Department.new d).name = Departments.to_name d ∧
    (((Departments.new.create d).2).create d').1 =
      .error (.Conflict (str "Department \"" ++ d' ++ str "\" already exists")) ∧
    (((Departments.new.create d).2).create d').2.list =
      ((Departments.new.create d).2).list := by
  have h1 : Departments.new.create d =
      (.ok (Departments.to_name d),
        { index := [(Departments.to_key d, Department.new d)] }) := rfl
  refine ⟨rfl, ?_, rfl, ?_, ?_⟩
  · rw [h1]
    unfold Departments.department
    simp [SMap.find?]
  · rw [h1]
    unfold Departments.create
    simp [SMap.containsK, SMap.find?, hc]
  · rw [h1]
    unfold Departments.create
    simp [SMap.containsK, SMap.find?, hc]

theorem C4_create_find_conflict_witness :
    (Departments.new.create (str "Sales")).1 = .ok (Departments.to_name (str "Sales")) ∧
    ((Departments.new.create (str "Sales")).2).department (str "Sales") =
      .ok (Department.new (str "Sales")) ∧
    (Department.new (str "Sales")).name = Departments.to_name (str "Sales") ∧
    (((Departments.new.create (str "Sales")).2).create (str "sALES")).1 =
      .error (.Conflict (str "Department \"" ++ str "sALES" ++ str "\" already exists")) ∧
    (((Departments.new.create (str "Sales")).2).create (str "sALES")).2.list =
      ((Departments.new.create (str "Sales")).2).list :=
  C4_create_find_conflict (str "Sales") (str "sALES") (by decide)

/-- **C8.**  Every successful Pull responds with the message
`Pulled employee "<e>" from department "<d>"` built from the raw command
strings: the department string is interpolated exactly as typed, not as
the normalized display name (and so is the employee string). -/
theorem C8_pull_uses_raw_department (db : Database) (employee_name department_name : Str)
    (department : Department)
    (hd : SMap.find? (Departments.to_key department_name) db.store.index.index =
      some department)
    (he : SMap.find? (Employees.to_key employee_name) department.employees.index ≠ none) :
    (db.delete_employee employee_name department_name).1 =
      .Message (str "Pulled employee \"" ++ employee_name ++
        str "\" from department \"" ++ department_name ++ str "\"") := by
  obtain ⟨emp, hemp⟩ := Option.ne_none_iff_exists'.mp he
  unfold Database.delete_employee Store.department Departments.department
  rw [hd]
  show ((match department.employees.delete employee_name with
    | (.error query_error, _) => (format_query_error query_error, db)
    | (.ok _, es) =>
      (.Message (str "Pulled employee \"" ++ employee_name ++
          str "\" from department \"" ++ department_name ++ str "\""),
        db.store.putBack department_name { department with employees := es }
          |> Database.mk)) : QueryResponse × Database).1 = _
  unfold Employees.delete
  have hc : SMap.containsK (Employees.to_key employee_name) department.employees.index = true := by
    unfold SMap.containsK
    rw [hemp]
    rfl
  rw [if_pos hc]

theorem C8_pull_uses_raw_department_witness :
    ((Database.mk { index := { index := [(str "A",
        { name := str "A", employees := { index := [(str "E", { name := str "E" })] } })] } }
      ).delete_employee (str "e") (str "a")).1 =
      .Message (str "Pulled employee \"" ++ str "e" ++
        str "\" from department \"" ++ str "a" ++ str "\"") :=
  C8_pull_uses_raw_department _ (str "e") (str "a")
    { name := str "A", employees := { index := [(str "E", { name := str "E" })] } }
    (by decide) (by decide)

/-- **C5.**  For every department collection and name `d` whose key is
absent: deleting `d` right after creating it — with any number of
intervening Assign operations into `d` — returns `Ok (to_name d)` and
restores exactly the original collection, so `d` is gone from `list()`
and every employee assigned to it is destroyed with it (no employee of
the deleted department remains reachable anywhere); deleting `d` when no
department with its key exists fails with the NotFound error and leaves
the collection unchanged. -/
theorem C5_delete_cascades (ds : Departments) (d : Str) (names : List Str)
    (habs : SMap.find? (Departments.to_key d) ds.index = none) :
    ((ds.create d).2.assignAll d names).delete d = (.ok (Departments.to_name d), ds) ∧
    ds.delete d = (.error (.NotFound (str "Department \"" ++ d ++ str "\" not found")), ds) := by
  have hcts : ¬ (SMap.containsK (Departments.to_key d) ds.index = true) := by
    unfold SMap.containsK
    rw [habs]
    simp
  constructor
  · have hins : (ds.create d).2 =
        { index := SMap.insertS (Departments.to_key d) (Department.new d) ds.index } := by
      unfold Departments.create
      rw [if_neg hcts]
    have hpres : SMap.containsK (Departments.to_key d)
        ((ds.create d).2.assignAll d names).index = true := by
      show (SMap.find? _ _).isSome = true
      rw [assignAll_presence, hins]
      show (SMap.find? _ (SMap.insertS _ _ _)).isSome = true
      rw [SMap.find?_insertS_self]
      rfl
    have herase : SMap.erase (Departments.to_key d)
        ((ds.create d).2.assignAll d names).index = ds.index := by
      rw [assignAll_erase, hins]
      show SMap.erase _ (SMap.insertS _ _ _) = ds.index
      exact SMap.erase_insertS (SMap.find?_eq_none.mp habs)
    unfold Departments.delete
    rw [if_pos hpres, herase]
  · unfold Departments.delete
    rw [if_neg hcts]

theorem C5_delete_cascades_witness :
    ((({ index := [(str "B", Department.new (str "B"))] } : Departments).create
        (str "A")).2.assignAll (str "A") [str "x", str "y"]).delete (str "A") =
      (.ok (Departments.to_name (str "A")),
        { index := [(str "B", Department.new (str "B"))] }) ∧
    ({ index := [(str "B", Department.new (str "B"))] } : Departments).delete (str "A") =
      (.error (.NotFound (str "Department \"" ++ str "A" ++ str "\" not found")),
        { index := [(str "B", Department.new (str "B"))] }) :=
  C5_delete_cascades { index := [(str "B", Department.new (str "B"))] }
    (str "A") [str "x", str "y"] (by decide)

/-- **C9.**  A transfer whose raw from- and to-strings differ but share
one normalized key bypasses the same-department short circuit, never
succeeds, and leaves the store untouched: it returns the department
NotFound error when the (shared) department key is absent, the employee
NotFound error when the employee is missing from it, and otherwise the
Conflict error, because the employee's key already occupies the identical
destination department. -/
theorem C9_same_key_transfer_never_succeeds (db : Database) (e fromD toD : Str)
    (hraw : fromD ≠ toD)
    (hkey : Departments.to_key fromD = Departments.to_key toD) :
    (∃ r, db.move_employee e fromD toD = some (r, db) ∧ isErrMessage r = true) ∧
    (SMap.find? (Departments.to_key fromD) db.store.index.index = none →
      db.move_employee e fromD toD =
        some (format_query_error (.NotFound
          (str "Department \"" ++ fromD ++ str "\" not found")), db)) ∧
    (∀ dF, SMap.find? (Departments.to_key fromD) db.store.index.index = some dF →
      SMap.find? (Employees.to_key e) dF.employees.index = none →
      db.move_employee e fromD toD =
        some (format_query_error (.NotFound
          (str "Employee \"" ++ e ++ str "\" does not exist")), db)) ∧
    (∀ dF, SMap.find? (Departments.to_key fromD) db.store.index.index = some dF →
      SMap.find? (Employees.to_key e) dF.employees.index ≠ none →
      db.move_employee e fromD toD =
        some (format_query_error (.Conflict
          (str "Employee \"" ++ e ++ str "\" already exists in department \"" ++
            toD ++ str "\"")), db)) := by
  have h2 : SMap.find? (Departments.to_key fromD) db.store.index.index = none →
      db.move_employee e fromD toD =
        some (format_query_error (.NotFound
          (str "Department \"" ++ fromD ++ str "\" not found")), db) := by
    intro hf
    unfold Database.move_employee Store.department Departments.department
    rw [if_neg hraw, hf]
  have h3 : ∀ dF, SMap.find? (Departments.to_key fromD) db.store.index.index = some dF →
      SMap.find? (Employees.to_key e) dF.employees.index = none →
      db.move_employee e fromD toD =
        some (format_query_error (.NotFound
          (str "Employee \"" ++ e ++ str "\" does not exist")), db) := by
    intro dF hf hne
    simp only [Database.move_employee, Store.department, Departments.department,
      Employees.employee, hraw, ← hkey, hf, hne, ite_false]
  have h4 : ∀ dF, SMap.find? (Departments.to_key fromD) db.store.index.index = some dF →
      SMap.find? (Employees.to_key e) dF.employees.index ≠ none →
      db.move_employee e fromD toD =
        some (format_query_error (.Conflict
          (str "Employee \"" ++ e ++ str "\" already exists in department \"" ++
            toD ++ str "\"")), db) := by
    intro dF hf hne
    obtain ⟨emp, hemp⟩ := Option.ne_none_iff_exists'.mp hne
    have hc : SMap.containsK (Employees.to_key e) dF.employees.index = true := by
      unfold SMap.containsK
      rw [hemp]
      rfl
    simp only [Database.move_employee, Store.department, Departments.department,
      Employees.employee, Employees.create, hraw, ← hkey, hf, hemp, hc, ite_false, ite_true]
  refine ⟨?_, h2, h3, h4⟩
  cases hf : SMap.find? (Departments.to_key fromD) db.store.index.index with
  | none => exact ⟨_, h2 hf, isErrMessage_format _⟩
  | some dF =>
    by_cases hne : SMap.find? (Employees.to_key e) dF.employees.index = none
    · exact ⟨_, h3 dF hf hne, isErrMessage_format _⟩
    · exact ⟨_, h4 dF hf hne, isErrMessage_format _⟩

theorem C9_same_key_transfer_never_succeeds_witness :
    ∃ r, (Database.mk { index := { index := [(str "SALES",
        { name := str "Sales",
          employees := { index := [(str "E", { name := str "E" })] } })] } }).move_employee
      (str "E") (str "sales") (str "SALES") =
        some (r, Database.mk { index := { index := [(str "SALES",
          { name := str "Sales",
            employees := { index := [(str "E", { name := str "E" })] } })] } }) ∧
      isErrMessage r = true :=
  (C9_same_key_transfer_never_succeeds _ (str "E") (str "sales") (str "SALES")
    (by decide) (by decide)).1

/-- **C1.**  Transfer atomicity.  For any well-formed store and any two
departments `A`, `B` with distinct keys where `A` contains the employee
`e` and `B` does not: `move_employee e A B` answers the success message,
removes `e`'s key from `A`'s employee collection (so `e` is absent from
`A`'s list), inserts it into `B`'s collection where it then occurs
exactly once, and touches no other department.  And whenever the source
department is missing, or `e` is not in the source, or the destination
department is missing, or an employee with `e`'s key already exists in
the destination, the transfer answers an error message and returns the
entire store unchanged. -/
theorem C1_transfer_atomicity (db : Database) (e A B : Str) (hwf : db.store.WFS) :
    (∀ dA dB : Department,
      Departments.to_key A ≠ Departments.to_key B →
      SMap.find? (Departments.to_key A) db.store.index.index = some dA →
      SMap.find? (Departments.to_key B) db.store.index.index = some dB →
      SMap.find? (Employees.to_key e) dA.employees.index ≠ none →
      SMap.find? (Employees.to_key e) dB.employees.index = none →
      ∃ db', db.move_employee e A B =
          some (.Message (str "Employee \"" ++ e ++ str "\" transferred from \"" ++ A ++
            str "\" to \"" ++ B ++ str "\" department"), db') ∧
        (∃ dA', SMap.find? (Departments.to_key A) db'.store.index.index = some dA' ∧
          dA'.employees.index = SMap.erase (Employees.to_key e) dA.employees.index ∧
          SMap.find? (Employees.to_key e) dA'.employees.index = none) ∧
        (∃ dB', SMap.find? (Departments.to_key B) db'.store.index.index = some dB' ∧
          dB'.employees.index =
            SMap.insertS (Employees.to_key e) (Employee.new e) dB.employees.index ∧
          SMap.find? (Employees.to_key e) dB'.employees.index = some (Employee.new e) ∧
          (SMap.keys dB'.employees.index).count (Employees.to_key e) = 1) ∧
        (∀ k, k ≠ Departments.to_key A → k ≠ Departments.to_key B →
          SMap.find? k db'.store.index.index = SMap.find? k db.store.index.index)) ∧
    ((SMap.find? (Departments.to_key A) db.store.index.index = none ∨
      (∃ dA, SMap.find? (Departments.to_key A) db.store.index.index = some dA ∧
        SMap.find? (Employees.to_key e) dA.employees.index = none) ∨
      SMap.find? (Departments.to_key B) db.store.index.index = none ∨
      (∃ dB, SMap.find? (Departments.to_key B) db.store.index.index = some dB ∧
        SMap.find? (Employees.to_key e) dB.employees.index ≠ none)) →
      ∃ r, db.move_employee e A B = some (r, db) ∧ isErrMessage r = true) := by
  constructor
  · intro dA dB hAB hA hB heA heB
    have hABraw : A ≠ B := fun h => hAB (by rw [h])
    obtain ⟨emp, hemp⟩ := Option.ne_none_iff_exists'.mp heA
    have hwfA : SMap.WF dA.employees.index := hwf.2 _ (SMap.find?_some_mem hA)
    have hBA : Departments.to_key B ≠ Departments.to_key A := Ne.symm hAB
    refine ⟨Database.mk (Store.mk (Departments.mk
      (SMap.setVal (Departments.to_key A)
        (Department.mk dA.name
          (Employees.mk (SMap.erase (Employees.to_key e) dA.employees.index)))
        (SMap.setVal (Departments.to_key B)
          (Department.mk dB.name
            (Employees.mk (SMap.insertS (Employees.to_key e) (Employee.new e)
              dB.employees.index)))
          db.store.index.index)))), ?_, ?_, ?_, ?_⟩
    · simp only [Database.move_employee, Store.department, Departments.department,
        Employees.employee, Employees.create, Employees.delete, Store.putBack,
        SMap.containsK, hABraw, hA, hB, hemp, heB, Option.isSome_some, Option.isSome_none,
        Bool.false_eq_true, ite_false, ite_true, SMap.find?_setVal_ne hAB]
    · refine ⟨Department.mk dA.name
        (Employees.mk (SMap.erase (Employees.to_key e) dA.employees.index)), ?_, rfl, ?_⟩
      · rw [SMap.find?_setVal_self, SMap.find?_setVal_ne hAB, hA]
        rfl
      · exact SMap.find?_erase_self hwfA
    · refine ⟨Department.mk dB.name
        (Employees.mk (SMap.insertS (Employees.to_key e) (Employee.new e)
          dB.employees.index)), ?_, rfl, ?_, ?_⟩
      · rw [SMap.find?_setVal_ne hBA, SMap.find?_setVal_self, hB]
        rfl
      · exact SMap.find?_insertS_self _
      · exact SMap.count_keys_insertS (SMap.find?_eq_none.mp heB)
    · intro k hkA hkB
      rw [SMap.find?_setVal_ne hkA, SMap.find?_setVal_ne hkB]
  · intro hcond
    by_cases hraw : A = B
    · refine ⟨.Message (str "ERROR: Cannot move employee from department to same department"),
        ?_, ?_⟩
      · unfold Database.move_employee
        rw [if_pos hraw]
      · rfl
    · cases hfA : SMap.find? (Departments.to_key A) db.store.index.index with
      | none =>
        refine ⟨format_query_error (.NotFound
          (str "Department \"" ++ A ++ str "\" not found")), ?_, isErrMessage_format _⟩
        unfold Database.move_employee Store.department Departments.department
        rw [if_neg hraw, hfA]
      | some dA =>
        by_cases heA : SMap.find? (Employees.to_key e) dA.employees.index = none
        · refine ⟨format_query_error (.NotFound
            (str "Employee \"" ++ e ++ str "\" does not exist")), ?_, isErrMessage_format _⟩
          simp only [Database.move_employee, Store.department, Departments.department,
            Employees.employee, hraw, hfA, heA, ite_false]
        · obtain ⟨emp, hemp⟩ := Option.ne_none_iff_exists'.mp heA
          cases hfB : SMap.find? (Departments.to_key B) db.store.index.index with
          | none =>
            refine ⟨format_query_error (.NotFound
              (str "Department \"" ++ B ++ str "\" not found")), ?_, isErrMessage_format _⟩
            simp only [Database.move_employee, Store.department, Departments.department,
              Employees.employee, hraw, hfA, hfB, hemp, ite_false]
          | some dB =>
            have heB : SMap.find? (Employees.to_key e) dB.employees.index ≠ none := by
              rcases hcond with h | ⟨dA', hdA', heA'⟩ | h | ⟨dB', hdB', heB'⟩
              · rw [hfA] at h
                cases h
              · rw [hfA] at hdA'
                cases hdA'
                exact absurd heA' heA
              · rw [hfB] at h
                cases h
              · rw [hfB] at hdB'
                cases hdB'
                exact heB'
            obtain ⟨empB, hempB⟩ := Option.ne_none_iff_exists'.mp heB
            have hc : SMap.containsK (Employees.to_key e) dB.employees.index = true := by
              unfold SMap.containsK
              rw [hempB]
              rfl
            refine ⟨format_query_error (.Conflict
              (str "Employee \"" ++ e ++ str "\" already exists in department \"" ++
                B ++ str "\"")), ?_, isErrMessage_format _⟩
            simp only [Database.move_employee, Store.department, Departments.department,
              Employees.employee, Employees.create, hraw, hfA, hfB, hemp, hc,
              ite_false, ite_true]

theorem C1_transfer_atomicity_witness :
    (Database.mk (Store.mk (Departments.mk
      [(str "A", Department.mk (str "A") (Employees.mk [(str "E", Employee.mk (str "E"))])),
       (str "B", Department.mk (str "B") (Employees.mk []))]))).store.WFS ∧
    (∃ db', (Database.mk (Store.mk (Departments.mk
        [(str "A", Department.mk (str "A") (Employees.mk [(str "E", Employee.mk (str "E"))])),
         (str "B", Department.mk (str "B") (Employees.mk []))]))).move_employee
        (str "e") (str "a") (str "b") =
          some (.Message (str "Employee \"" ++ str "e" ++ str "\" transferred from \"" ++
            str "a" ++ str "\" to \"" ++ str "b" ++ str "\" department"), db') ∧
      (∃ dA', SMap.find? (Departments.to_key (str "a")) db'.store.index.index = some dA' ∧
        dA'.employees.index = SMap.erase (Employees.to_key (str "e"))
          [(str "E", Employee.mk (str "E"))] ∧
        SMap.find? (Employees.to_key (str "e")) dA'.employees.index = none) ∧
      (∃ dB', SMap.find? (Departments.to_key (str "b")) db'.store.index.index = some dB' ∧
        dB'.employees.index = SMap.insertS (Employees.to_key (str "e"))
          (Employee.new (str "e")) [] ∧
        SMap.find? (Employees.to_key (str "e")) dB'.employees.index =
          some (Employee.new (str "e")) ∧
        (SMap.keys dB'.employees.index).count (Employees.to_key (str "e")) = 1) ∧
      (∀ k, k ≠ Departments.to_key (str "a") → k ≠ Departments.to_key (str "b") →
        SMap.find? k db'.store.index.index =
          SMap.find? k (Database.mk (Store.mk (Departments.mk
            [(str "A", Department.mk (str "A")
                (Employees.mk [(str "E", Employee.mk (str "E"))])),
             (str "B", Department.mk (str "B")
                (Employees.mk []))]))).store.index.index)) :=
  ⟨by unfold Store.WFS SMap.WF; decide,
    (C1_transfer_atomicity _ (str "e") (str "a") (str "b")
      (by unfold Store.WFS SMap.WF; decide)).1
      (Department.mk (str "A") (Employees.mk [(str "E", Employee.mk (str "E"))]))
      (Department.mk (str "B") (Employees.mk []))
      (by decide) (by decide) (by decide) (by decide) (by decide)⟩

theorem parse_assign_eq_assignSpec : ∀ (tokens : List Str),
    parse_assign tokens = assignSpec tokens := by
  intro tokens
  cases tokens using List.reverseRecOn with
  | nil => rfl
  | append_singleton rest dep =>
    cases rest using List.reverseRecOn with
    | nil => simp [parse_assign, assignSpec]
    | append_singleton front to_op =>
      have hrev : ((front ++ [to_op]) ++ [dep]).reverse = dep :: to_op :: front.reverse := by
        simp
      have hLast : ((front ++ [to_op]) ++ [dep]).getLast? = some dep := List.getLast?_concat _
      have hDrop : ((front ++ [to_op]) ++ [dep]).dropLast = front ++ [to_op] :=
        List.dropLast_concat
      have hLast2 : (front ++ [to_op]).getLast? = some to_op := List.getLast?_concat _
      have hDrop2 : (front ++ [to_op]).dropLast = front := List.dropLast_concat
      unfold parse_assign assignSpec
      rw [hLast, hDrop, hLast2, hDrop2, hrev]
      by_cases hto : strToUppercase to_op = str "TO" <;>
        cases front <;>
        simp [hto, List.reverse_reverse]

/-- **C7.**  For every input line whose first whitespace token uppercases
to `ASSIGN`, the parser's result on the remaining tokens equals the
claim's right-to-left grammar `assignSpec`: the last token is the
department, the second-to-last must equal `TO` case-insensitively, the
front tokens (at least one) joined with single spaces form the employee
name, yielding `AssignEmployeeToDepartment`; every malformed shape
collapses to the single fixed syntax-error message. -/
theorem C7_assign_parsed_from_the_right (line first : Str) (tokens : List Str)
    (h : splitWS line = first :: tokens)
    (hfirst : strToUppercase first = str "ASSIGN") :
    parse line = assignSpec tokens := by
  have d1 : ¬(str "ASSIGN" = str "EXIT" ∨ str "ASSIGN" = str "QUIT" ∨
      str "ASSIGN" = str "LEAVE" ∨ str "ASSIGN" = str "BYE") := by decide
  have d2 : ¬(str "ASSIGN" = str "HELP" ∨ str "ASSIGN" = str "HALP") := by decide
  have d3 : ¬(str "ASSIGN" = str "SHOW") := by decide
  have d4 : ¬(str "ASSIGN" = str "LIST") := by decide
  simp only [parse, h, hfirst]
  rw [if_neg d1, if_neg d2, if_neg d3, if_neg d4, if_pos trivial]
  exact parse_assign_eq_assignSpec tokens

theorem C7_assign_parsed_from_the_right_witness :
    splitWS (str "assign Baby Driver to Shipping") =
      str "assign" :: [str "Baby", str "Driver", str "to", str "Shipping"] ∧
    strToUppercase (str "assign") = str "ASSIGN" ∧
    parse (str "assign Baby Driver to Shipping") =
      assignSpec [str "Baby", str "Driver", str "to", str "Shipping"] ∧
    assignSpec [str "Baby", str "Driver", str "to", str "Shipping"] =
      .AssignEmployeeToDepartment (str "Baby Driver") (str "Shipping") :=
  ⟨by decide, by decide,
    C7_assign_parsed_from_the_right (str "assign Baby Driver to Shipping")
      (str "assign") [str "Baby", str "Driver", str "to", str "Shipping"]
      (by decide) (by decide),
    by decide⟩

/-- **C3.**  In every store reachable by create/delete operations, both
`BTreeMap`s stay strictly sorted by uppercased key, so
`Departments::list` and each department's `Employees::list` emit the
stored display names in ascending (case-insensitive, i.e. uppercased-key)
order; and the resulting collection is independent of the order in which
entries with pairwise distinct keys were inserted, at both the department
and the employee level. -/
theorem C3_lists_sorted_insertion_order_independent :
    (∀ ops : List StoreOp,
      SMap.WF (runOps ops).index.index ∧
      (∀ p ∈ (runOps ops).index.index, SMap.WF p.2.employees.index) ∧
      (runOps ops).index.list = ((runOps ops).index.index).map (fun p => p.2.name) ∧
      (∀ p ∈ (runOps ops).index.index,
        p.2.employees.list = (p.2.employees.index).map (fun q => q.2.name))) ∧
    (∀ (s : Store) (names names' : List Str),
      List.Pairwise (fun a b => Departments.to_key a ≠ Departments.to_key b) names →
      names.Perm names' →
      names.foldl (fun st n => StoreOp.apply st (.formDept n)) s =
        names'.foldl (fun st n => StoreOp.apply st (.formDept n)) s) ∧
    (∀ (es : Employees) (names names' : List Str),
      List.Pairwise (fun a b => Employees.to_key a ≠ Employees.to_key b) names →
      names.Perm names' →
      names.foldl (fun e n => (Employees.create e n).2) es =
        names'.foldl (fun e n => (Employees.create e n).2) es) := by
  refine ⟨?_, ?_, ?_⟩
  · intro ops
    have h := WFS_runOps ops
    exact ⟨h.1, h.2, rfl, fun p _ => rfl⟩
  · intro s names names' hp hperm
    apply Store.eq_of_dept_index
    rw [formDept_foldl_eq, formDept_foldl_eq]
    exact createStep_perm _ _ hp hperm _
  · intro es names names' hp hperm
    apply Employees.eq_of_emp_index
    rw [empCreate_foldl_eq, empCreate_foldl_eq]
    exact createStep_perm _ _ hp hperm _

theorem C3_lists_sorted_insertion_order_independent_witness :
    (SMap.WF (runOps [StoreOp.formDept (str "b"), StoreOp.formDept (str "A"),
        StoreOp.assignEmp (str "A") (str "z"),
        StoreOp.assignEmp (str "A") (str "y")]).index.index ∧
      (∀ p ∈ (runOps [StoreOp.formDept (str "b"), StoreOp.formDept (str "A"),
        StoreOp.assignEmp (str "A") (str "z"),
        StoreOp.assignEmp (str "A") (str "y")]).index.index, SMap.WF p.2.employees.index) ∧
      (runOps [StoreOp.formDept (str "b"), StoreOp.formDept (str "A"),
        StoreOp.assignEmp (str "A") (str "z"),
        StoreOp.assignEmp (str "A") (str "y")]).index.list =
        ((runOps [StoreOp.formDept (str "b"), StoreOp.formDept (str "A"),
          StoreOp.assignEmp (str "A") (str "z"),
          StoreOp.assignEmp (str "A") (str "y")]).index.index).map (fun p => p.2.name) ∧
      (∀ p ∈ (runOps [StoreOp.formDept (str "b"), StoreOp.formDept (str "A"),
        StoreOp.assignEmp (str "A") (str "z"),
        StoreOp.assignEmp (str "A") (str "y")]).index.index,
        p.2.employees.list = (p.2.employees.index).map (fun q => q.2.name))) ∧
    [str "b", str "A"].foldl (fun st n => StoreOp.apply st (.formDept n)) Store.new =
      [str "A", str "b"].foldl (fun st n => StoreOp.apply st (.formDept n)) Store.new :=
  ⟨(C3_lists_sorted_insertion_order_independent).1
      [StoreOp.formDept (str "b"), StoreOp.formDept (str "A"),
        StoreOp.assignEmp (str "A") (str "z"), StoreOp.assignEmp (str "A") (str "y")],
    (C3_lists_sorted_insertion_order_independent).2.1 Store.new
      [str "b", str "A"] [str "A", str "b"] (by decide) (by decide)⟩

